import Mathlib

/-!
# Matchbox Keyboard: layout/state engine (`src/matchbox-keyboard.c`)

A shallow embedding of the modifier-state operations, of the hit test
`mb_kbd_locate_key`, of the accessors and of the constructor `mb_kbd_new`,
followed by the properties proved about them.

Conventions of the embedding.

* C `int` coordinates are `Int`.  The sums `row.x + row.width`,
  `row.y + row.height` and `key.abs_x + key.width` are the mathematical sums:
  signed overflow is undefined in C, so the source gives these sums a value
  only when they stay inside the `int` range, and there both agree.
* The linked lists (`List *`, walked with `util_list_next`) are Lean lists in
  the same order.
* A pointer to a key or row is modelled by the record it points to; the field
  `addr` of a key stands for the address, so that two keys with the same
  geometry and flags can still be told apart.
* `keys_state` is a 32-bit word held in a `Nat`; `|`, `^` and `&` are the
  bitwise operations on `Nat`, and `~s` is `4294967295 ^^^ s`.
* A C `boolean` result is the `Bool` "the returned integer is non-zero".
-/

namespace MatchboxKeyboard

/-! ## Data model -/

/-- One key of a row.  The hit test reads a key only through the accessors
`mb_kbd_key_abs_x`, `mb_kbd_key_width`, `mb_kbd_key_is_blank` and
`mb_kbd_key_get_extended` (declared in the header, which is not among the
sources); each field holds what the accessor of the same name returns. -/
structure MBKeyboardKey where
  /-- Address of the key: the value of the `MBKeyboardKey *` pointer. -/
  addr : Nat
  /-- Result of `mb_kbd_key_abs_x`. -/
  abs_x : Int
  /-- Result of `mb_kbd_key_width`. -/
  width : Int
  /-- Result of `mb_kbd_key_is_blank`. -/
  is_blank : Bool
  /-- Result of `mb_kbd_key_get_extended`. -/
  extended : Bool
  deriving DecidableEq, Repr

/-- One row of a layout: `x`, `y`, `width`, `height` hold what `mb_kbd_row_x`,
`mb_kbd_row_y`, `mb_kbd_row_width`, `mb_kbd_row_height` return, and `keys` is
the list walked by `mb_kbd_row_for_each_key`. -/
structure MBKeyboardRow where
  x : Int
  y : Int
  width : Int
  height : Int
  keys : List MBKeyboardKey
  deriving DecidableEq, Repr

/-- A layout: `rows` is the list returned by `mb_kbd_layout_rows`. -/
structure MBKeyboardLayout where
  rows : List MBKeyboardRow
  deriving DecidableEq, Repr

/-- The fields of `struct MBKeyboard` that `matchbox-keyboard.c` reads or
writes (the `ui` handle, owned by the windowing layer, is left out).
`selected_layout` is dereferenced by the hit test without a NULL test, so the
embedding covers keyboards whose selected layout is set. -/
structure MBKeyboard where
  font_family : String
  font_pt_size : Int
  font_variant : String
  layouts : List MBKeyboardLayout
  selected_layout : MBKeyboardLayout
  key_border : Int
  key_pad : Int
  key_margin : Int
  row_spacing : Int
  col_spacing : Int
  extended : Bool
  held_key : Option MBKeyboardKey
  keys_state : Nat
  deriving DecidableEq, Repr

/-- The modifier kinds of the enumeration `MBKeyboardStateType`, by the names
of their enumerators.  The numeric value of an enumerator is given by
`MBKeyboardStateBits.mask`. -/
inductive MBKeyboardStateType where
  | MBKeyboardStateShifted
  | MBKeyboardStateMod1
  | MBKeyboardStateMod2
  | MBKeyboardStateMod3
  deriving DecidableEq, Repr

/-- The enumeration `MBKeyboardKeyStateType` returned by
`mb_kbd_keys_current_state`. -/
inductive MBKeyboardKeyStateType where
  | MBKeyboardKeyStateNormal
  | MBKeyboardKeyStateShifted
  | MBKeyboardKeyStateMod1
  | MBKeyboardKeyStateMod2
  | MBKeyboardKeyStateMod3
  deriving DecidableEq, Repr

/-- Modelled from the spec: the header that gives the enumerators of
`MBKeyboardStateType` their values is not among the sources.  The spec
describes the modifier state as "A bitmask value, one bit per modifier kind:
Shifted, Mod1, Mod2, Mod3", so every modifier is one bit of the 32-bit word;
which bit it is stays a parameter. -/
structure MBKeyboardStateBits where
  bit : MBKeyboardStateType → Fin 32

/-- The value of the enumerator of modifier `m`: the word with only the bit of
`m` set. -/
def MBKeyboardStateBits.mask (bits : MBKeyboardStateBits) (m : MBKeyboardStateType) : Nat :=
  1 <<< (bits.bit m).val

/-! ## Modifier state (`matchbox-keyboard.c`, lines 210-256) -/

/-- Source line: `kbd->keys_state |= state;` -/
def mb_kbd_add_state (kbd : MBKeyboard) (state : Nat) : MBKeyboard :=
  { kbd with keys_state := kbd.keys_state ||| state }

/-- Source line: `kbd->keys_state ^= state;` -/
def mb_kbd_toggle_state (kbd : MBKeyboard) (state : Nat) : MBKeyboard :=
  { kbd with keys_state := kbd.keys_state ^^^ state }

/-- Source line: `return (kbd->keys_state & state);`.  The result type
`boolean` is a typedef of the header; the returned integer is read as a truth
value, true when it is not zero. -/
def mb_kbd_has_state (kbd : MBKeyboard) (state : Nat) : Bool :=
  (kbd.keys_state &&& state) != 0

/-- Source line: `kbd->keys_state &= ~(state);` with the complement taken on 32 bits. -/
def mb_kbd_remove_state (kbd : MBKeyboard) (state : Nat) : MBKeyboard :=
  { kbd with keys_state := kbd.keys_state &&& (4294967295 ^^^ state) }

/-- The cascade of `mb_kbd_keys_current_state`: four tests in the order
Shifted, Mod1, Mod2, Mod3, each returning at once, then Normal. -/
def mb_kbd_keys_current_state (bits : MBKeyboardStateBits) (kbd : MBKeyboard) :
    MBKeyboardKeyStateType :=
  if mb_kbd_has_state kbd (bits.mask MBKeyboardStateType.MBKeyboardStateShifted) then
    MBKeyboardKeyStateType.MBKeyboardKeyStateShifted
  else if mb_kbd_has_state kbd (bits.mask MBKeyboardStateType.MBKeyboardStateMod1) then
    MBKeyboardKeyStateType.MBKeyboardKeyStateMod1
  else if mb_kbd_has_state kbd (bits.mask MBKeyboardStateType.MBKeyboardStateMod2) then
    MBKeyboardKeyStateType.MBKeyboardKeyStateMod2
  else if mb_kbd_has_state kbd (bits.mask MBKeyboardStateType.MBKeyboardStateMod3) then
    MBKeyboardKeyStateType.MBKeyboardKeyStateMod3
  else
    MBKeyboardKeyStateType.MBKeyboardKeyStateNormal

/-! ## Hit test (`matchbox-keyboard.c`, lines 271-347) -/

/-- Source line: `return kb->selected_layout;` -/
def mb_kbd_get_selected_layout (kb : MBKeyboard) : MBKeyboardLayout :=
  kb.selected_layout

/-- Source line: `kb->extended = extend;` -/
def mb_kbd_set_extended (kb : MBKeyboard) (extend : Bool) : MBKeyboard :=
  { kb with extended := extend }

/-- Source line: `return kb->extended;` -/
def mb_kbd_is_extended (kb : MBKeyboard) : Bool :=
  kb.extended

/-- The inner loop of `mb_kbd_locate_key` (`mb_kbd_row_for_each_key`, lines
290-303) from the list node `key_item` on: a key that is extended while the
keyboard is not is passed over (`continue`); the first remaining key that is
not blank and whose span holds `x` is returned; running off the end of the
list reaches the `return NULL` of line 305. -/
def locate_key_in_row (kb : MBKeyboard) (x : Int) :
    List MBKeyboardKey → Option MBKeyboardKey
  | [] => none
  | key :: key_item =>
    if (!mb_kbd_is_extended kb) && key.extended then
      locate_key_in_row kb x key_item
    else if (!key.is_blank) ∧ x ≥ key.abs_x ∧ x ≤ key.abs_x + key.width then
      some key
    else
      locate_key_in_row kb x key_item

/-- The outer loop of `mb_kbd_locate_key` (lines 281-310) from the list node
`row_item` on: the first row whose box holds `(x, y)` decides the result; a
row that does not hold the point is passed over; the end of the list gives
NULL. -/
def locate_key_in_rows (kb : MBKeyboard) (x y : Int) :
    List MBKeyboardRow → Option MBKeyboardKey
  | [] => none
  | row :: row_item =>
    if x ≥ row.x ∧ x ≤ row.x + row.width ∧ y ≥ row.y ∧ y ≤ row.y + row.height then
      locate_key_in_row kb x row.keys
    else
      locate_key_in_rows kb x y row_item

/-- The function `mb_kbd_locate_key (kb, x, y)`: the selected layout is
fetched, its rows are walked, and the result is the key under the point, with
`none` for NULL. -/
def mb_kbd_locate_key (kb : MBKeyboard) (x y : Int) : Option MBKeyboardKey :=
  let layout := mb_kbd_get_selected_layout kb
  locate_key_in_rows kb x y layout.rows

/-! ## Vocabulary of the statements -/

/-- The point `(x, y)` lies in the inclusive bounding box of `row`:
`row.x <= x <= row.x + row.width` and `row.y <= y <= row.y + row.height`. -/
def row_holds (row : MBKeyboardRow) (x y : Int) : Prop :=
  row.x ≤ x ∧ x ≤ row.x + row.width ∧ row.y ≤ y ∧ y ≤ row.y + row.height

instance (row : MBKeyboardRow) (x y : Int) : Decidable (row_holds row x y) := by
  unfold row_holds
  infer_instance

/-- The coordinate `x` lies in the inclusive horizontal span of `key`:
`key.abs_x <= x <= key.abs_x + key.width`. -/
def key_spans (key : MBKeyboardKey) (x : Int) : Prop :=
  key.abs_x ≤ x ∧ x ≤ key.abs_x + key.width

instance (key : MBKeyboardKey) (x : Int) : Decidable (key_spans key x) := by
  unfold key_spans
  infer_instance

/-- The key is hidden on this keyboard: it is extended while extended-mode is
false. -/
def key_hidden (kb : MBKeyboard) (key : MBKeyboardKey) : Prop :=
  key.extended = true ∧ kb.extended = false

instance (kb : MBKeyboard) (key : MBKeyboardKey) : Decidable (key_hidden kb key) := by
  unfold key_hidden
  infer_instance

/-- The key can answer a hit at `x`: it is not blank, it is not hidden, and
its span holds `x`. -/
def key_hit (kb : MBKeyboard) (x : Int) (key : MBKeyboardKey) : Prop :=
  key.is_blank = false ∧ ¬ key_hidden kb key ∧ key_spans key x

instance (kb : MBKeyboard) (x : Int) (key : MBKeyboardKey) : Decidable (key_hit kb x key) := by
  unfold key_hit
  infer_instance

/-- The reference of the hit test, written from the words of the spec and not
from the code: the first row of the selected layout whose box holds the point
is found; without one the result is none; with one the result is the first key
of that row that can answer the hit, or none. -/
def locate_key_reference (kb : MBKeyboard) (x y : Int) : Option MBKeyboardKey :=
  match kb.selected_layout.rows.find? (fun row => decide (row_holds row x y)) with
  | none => none
  | some row => row.keys.find? (fun key => decide (key_hit kb x key))

/-- The index named by the end-to-end scenario, `max(0, ceil(x/w) - 1)`, with
the quotient taken in the rationals. -/
def hit_index (x w : Int) : Nat :=
  Int.toNat (max 0 (⌈(x : ℚ) / (w : ℚ)⌉ - 1))

/-! ## Sample data -/

/-- A key record. -/
def sample_key (addr : Nat) (abs_x width : Int) (is_blank extended : Bool) : MBKeyboardKey :=
  { addr := addr, abs_x := abs_x, width := width, is_blank := is_blank, extended := extended }

/-- A keyboard as `mb_kbd_new` leaves its scalar fields (border 1, font
"sans" 8 "bold"), with one layout made of `rows`, which is selected, and the
given extended flag and modifier word. -/
def sample_keyboard (rows : List MBKeyboardRow) (extended : Bool) (keys_state : Nat) :
    MBKeyboard :=
  { font_family := "sans", font_pt_size := 8, font_variant := "bold",
    layouts := [{ rows := rows }], selected_layout := { rows := rows },
    key_border := 1, key_pad := 0, key_margin := 0, row_spacing := 0, col_spacing := 0,
    extended := extended, held_key := none, keys_state := keys_state }

/-- A bit assignment for the modifiers: Shifted, Mod1, Mod2, Mod3 on bits 1, 2,
3, 4. -/
def sample_bits : MBKeyboardStateBits :=
  { bit := fun m =>
      match m with
      | MBKeyboardStateType.MBKeyboardStateShifted => 1
      | MBKeyboardStateType.MBKeyboardStateMod1 => 2
      | MBKeyboardStateType.MBKeyboardStateMod2 => 3
      | MBKeyboardStateType.MBKeyboardStateMod3 => 4 }

/-- Upper row of the stacked sample, the box `[0, 300] x [0, 50]`: a blank key
over `[0, 100]` and a plain key over `[100, 200]`. -/
def upper_row : MBKeyboardRow :=
  { x := 0, y := 0, width := 300, height := 50,
    keys := [sample_key 10 0 100 true false, sample_key 11 100 100 false false] }

/-- Lower row of the stacked sample, the box `[0, 300] x [50, 100]`: a plain
key over `[0, 100]` and a blank key over `[100, 200]`. -/
def lower_row : MBKeyboardRow :=
  { x := 0, y := 50, width := 300, height := 50,
    keys := [sample_key 20 0 100 false false, sample_key 21 100 100 true false] }

/-- Two rows that share the edge `y = 50`. -/
def stacked_rows : List MBKeyboardRow :=
  [upper_row, lower_row]

/-- The row of the end-to-end scenario: the box `[0, 300] x [0, 50]` with three
plain keys of width 100 at `abs_x` 0, 100, 200. -/
def three_key_row : MBKeyboardRow :=
  { x := 0, y := 0, width := 300, height := 50,
    keys := [sample_key 0 0 100 false false, sample_key 1 100 100 false false,
      sample_key 2 200 100 false false] }

/-- A row with an extended key: a plain key over `[0, 100]`, an extended key
over `[100, 200]` and an extended blank key over `[200, 300]`. -/
def extended_row : MBKeyboardRow :=
  { x := 0, y := 0, width := 300, height := 50,
    keys := [sample_key 40 0 100 false false, sample_key 41 100 100 false true,
      sample_key 42 200 100 true true] }

/-- A row under `extended_row`, sharing the edge `y = 50`, with one extended
key over `[0, 100]`. -/
def extended_lower_row : MBKeyboardRow :=
  { x := 0, y := 50, width := 300, height := 50,
    keys := [sample_key 50 0 100 false true] }

/-! ## Accessors and setters (`matchbox-keyboard.c`, lines 180-232 and 313-335) -/

/-- Source line: `return kb->row_spacing;` -/
def mb_kbd_row_spacing (kb : MBKeyboard) : Int :=
  kb.row_spacing

/-- Source line: `return kb->col_spacing;` -/
def mb_kbd_col_spacing (kb : MBKeyboard) : Int :=
  kb.col_spacing

/-- Source line: `return kb->key_border;` -/
def mb_kbd_keys_border (kb : MBKeyboard) : Int :=
  kb.key_border

/-- Source line: `return kb->key_pad;` -/
def mb_kbd_keys_pad (kb : MBKeyboard) : Int :=
  kb.key_pad

/-- Source line: `return kb->key_margin;` -/
def mb_kbd_keys_margin (kb : MBKeyboard) : Int :=
  kb.key_margin

/-- Source line: `return (kbd->keys_state > 0);` on the unsigned modifier
word. -/
def mb_kbd_has_any_state (kbd : MBKeyboard) : Bool :=
  decide (kbd.keys_state > 0)

/-- Source line: `kb->held_key = key;` with `none` for NULL. -/
def mb_kbd_set_held_key (kb : MBKeyboard) (key : Option MBKeyboardKey) : MBKeyboard :=
  { kb with held_key := key }

/-- Source line: `return kb->held_key;` -/
def mb_kbd_get_held_key (kb : MBKeyboard) : Option MBKeyboardKey :=
  kb.held_key

/-- One call of an operation that writes the modifier word, with the modifier
it is given. -/
inductive StateCall where
  | add (m : MBKeyboardStateType)
  | remove (m : MBKeyboardStateType)
  | toggle (m : MBKeyboardStateType)
  deriving DecidableEq, Repr

/-- The keyboard after one call. -/
def StateCall.run (bits : MBKeyboardStateBits) (kbd : MBKeyboard) : StateCall → MBKeyboard
  | StateCall.add m => mb_kbd_add_state kbd (bits.mask m)
  | StateCall.remove m => mb_kbd_remove_state kbd (bits.mask m)
  | StateCall.toggle m => mb_kbd_toggle_state kbd (bits.mask m)

/-- The keyboard after a sequence of calls, first call first. -/
def run_state_calls (bits : MBKeyboardStateBits) (kbd : MBKeyboard) (calls : List StateCall) :
    MBKeyboard :=
  calls.foldl (fun k c => StateCall.run bits k c) kbd

/-! ## Construction (`matchbox-keyboard.c`, lines 22-178 and 313-317)

C strings are lists of characters, one `Char` for one `char`, without the
terminating NUL.  The collaborators of `mb_kbd_new` (the windowing layer, the
configuration loader, `getenv`, `strtol`) are not among the sources; each is
called at most once per run, so what it returns in that run is a field of
`Collaborators`. -/

/-- Modelled from the spec: `util_list_append` is not among the sources; by its
name and by "Layouts are added during that load" it puts `data` after the last
node of the list. -/
def util_list_append {α : Type} (list : List α) (data : α) : List α :=
  list ++ [data]

/-- Modelled from the spec: `util_list_get_nth_data` is not among the sources;
by its name and by "defaulting to the first registered Layout" it gives the
data of node `n`, counted from 0, and NULL (`none`) when the list is shorter. -/
def util_list_get_nth_data {α : Type} (list : List α) (n : Nat) : Option α :=
  list[n]?

/-- Source line: `kb->layouts = util_list_append(kb->layouts, (pointer)layout);` -/
def mb_kbd_add_layout (kb : MBKeyboard) (layout : MBKeyboardLayout) : MBKeyboard :=
  { kb with layouts := util_list_append kb.layouts layout }

/-- The constant of `#define FONT_FAMILY_LEN 100`. -/
def FONT_FAMILY_LEN : Nat := 100

/-- The successive non-NULL results of `strtok (cp, delimiter)`,
`strtok (NULL, delimiter)`, ... for a one-character delimiter: the maximal
runs of characters other than the delimiter, in order.  `token` holds the
characters of the run being read. -/
def strtok_tokens (delimiter : Char) : List Char → List Char → List (List Char)
  | [], token => if token = [] then [] else [token]
  | c :: cp, token =>
    if c = delimiter then
      if token = [] then strtok_tokens delimiter cp []
      else token :: strtok_tokens delimiter cp []
    else strtok_tokens delimiter cp (token ++ [c])

/-- The libc call `strncat (dest, src, n)` with `dest` an array of `size`
chars: the first `n` characters of `src` (all of `src` when it is shorter) are
put after `dest`, followed by a terminating NUL.  The NUL is one more char
than `n` counts; when it does not fit in the array the call writes past its end
and the result is `none`. -/
def strncat (size : Nat) (dest src : List Char) (n : Nat) : Option (List Char) :=
  if (dest ++ src.take n).length + 1 ≤ size then some (dest ++ src.take n) else none

/-- The `while (NULL != token)` loop of the `--fontfamily` branch (lines
95-101) with `token :: next` the tokens still to come: the token is appended
to `family` with `strncat (family, token, FONT_FAMILY_LEN - strlen (family))`
and, when another token follows, a space is appended the same way. -/
def font_family_loop (family : List Char) : List (List Char) → Option (List Char)
  | [] => some family
  | token :: next =>
    match strncat FONT_FAMILY_LEN family token (FONT_FAMILY_LEN - family.length) with
    | none => none
    | some family1 =>
      match next with
      | [] => some family1
      | _ :: _ =>
        match strncat FONT_FAMILY_LEN family1 [' '] (FONT_FAMILY_LEN - family1.length) with
        | none => none
        | some family2 => font_family_loop family2 next

/-- The `else` block of the `--fontfamily` branch (lines 88-104) for the value
`v`: `family` starts empty (`memset`), the loop runs over the tokens of `v`
between colons, and `strndup (family, 100)` is stored.  The result is `none`
when a `strncat` wrote past the end of `family`. -/
def font_family_of_value (v : List Char) : Option (List Char) :=
  match font_family_loop [] (strtok_tokens ':' v []) with
  | none => none
  | some family => some (family.take 100)

/-- The enumeration `MBKeyboardDisplayOrientation`. -/
inductive MBKeyboardDisplayOrientation where
  | MBKeyboardDisplayAny
  | MBKeyboardDisplayPortrait
  | MBKeyboardDisplayLandscape
  deriving DecidableEq, Repr

/-- What the argument loop of `mb_kbd_new` writes: the three font fields of the
keyboard and the locals `variant`, `want_embedding`, `want_daemon`,
`orientation`. -/
structure NewLocals where
  font_family : List Char
  font_pt_size : Int
  font_variant : List Char
  variant : Option (List Char)
  want_embedding : Bool
  want_daemon : Bool
  orientation : MBKeyboardDisplayOrientation
  deriving DecidableEq, Repr

/-- The values before the argument loop (lines 47-64): fonts "sans", 8, "bold",
no variant, no embedding, no daemon, any orientation. -/
def new_locals_start : NewLocals :=
  { font_family := "sans".toList, font_pt_size := 8, font_variant := "bold".toList,
    variant := none, want_embedding := false, want_daemon := false,
    orientation := MBKeyboardDisplayOrientation.MBKeyboardDisplayAny }

/-- How the argument loop ends: `usage` when `mb_kbd_usage` was called, which
ends the process with `exit (-1)`; `overflow` when a `strncat` wrote past the
end of `family`; `parsed` when the loop ran to its end. -/
inductive ArgsResult where
  | usage
  | overflow
  | parsed (locals : NewLocals)
  deriving DecidableEq, Repr

/-- The loop `for (i = 1; i < argc; i++)` of `mb_kbd_new` (lines 66-145) over
the arguments `argv[i], argv[i+1], ...` still to read.  An option that takes a
value reads the next argument (`++i`) and calls `mb_kbd_usage` when there is
none; an argument that is no option is the layout variant when it is the last
one and does not start with `-`, and a call of `mb_kbd_usage` otherwise. -/
def mb_kbd_new_args (strtol : List Char → Int) (locals : NewLocals) :
    List (List Char) → ArgsResult
  | [] => ArgsResult.parsed locals
  | arg :: rest =>
    if arg = "-xid".toList ∨ arg = "--xid".toList then
      mb_kbd_new_args strtol { locals with want_embedding := true } rest
    else if arg = "-d".toList ∨ arg = "--daemon".toList then
      mb_kbd_new_args strtol { locals with want_daemon := true } rest
    else if arg = "--fontfamily".toList then
      match rest with
      | [] => ArgsResult.usage
      | v :: rest2 =>
        match font_family_of_value v with
        | none => ArgsResult.overflow
        | some family => mb_kbd_new_args strtol { locals with font_family := family } rest2
    else if arg = "--fontptsize".toList then
      match rest with
      | [] => ArgsResult.usage
      | v :: rest2 => mb_kbd_new_args strtol { locals with font_pt_size := strtol v } rest2
    else if arg = "--fontvariant".toList then
      match rest with
      | [] => ArgsResult.usage
      | v :: rest2 => mb_kbd_new_args strtol { locals with font_variant := v } rest2
    else if arg = "-o".toList ∨ arg = "--orientation".toList then
      match rest with
      | [] => ArgsResult.usage
      | v :: rest2 =>
        if v = "portrait".toList then
          mb_kbd_new_args strtol
            { locals with orientation := MBKeyboardDisplayOrientation.MBKeyboardDisplayPortrait }
            rest2
        else if v = "landscape".toList then
          mb_kbd_new_args strtol
            { locals with orientation := MBKeyboardDisplayOrientation.MBKeyboardDisplayLandscape }
            rest2
        else ArgsResult.usage
    else if rest = [] ∧ arg.head? ≠ some '-' then
      ArgsResult.parsed { locals with variant := some arg }
    else ArgsResult.usage

/-- Modelled from the spec: the loader, the windowing layer, `getenv` and
`strtol` are not among the sources.  The record holds what each returns in one
run of `mb_kbd_new`.  `mb_kbd_config_load` is given the variant; it returns
the layouts it registered with `mb_kbd_add_layout`, in the order of the calls,
and its success flag.  Following "the configuration loader builds
Layouts/Rows/Keys once at startup and hands them to the Keyboard", the loader
and the windowing layer write no field of the keyboard other than `layouts`
(and the `ui` handle). -/
structure Collaborators where
  getenv_MB_KBD_VARIANT : Option (List Char)
  strtol : List Char → Int
  mb_kbd_ui_init : Bool
  mb_kbd_config_load : Option (List Char) → List MBKeyboardLayout × Bool
  mb_kbd_ui_realize : Bool

/-- A call of `mb_kbd_new` into a collaborator. -/
inductive Call where
  | mb_kbd_ui_init
  | mb_kbd_config_load (variant : Option (List Char))
  | mb_kbd_ui_set_embeded
  | mb_kbd_ui_set_daemon
  | mb_kbd_ui_limit_orientation (orientation : MBKeyboardDisplayOrientation)
  | mb_kbd_ui_realize
  | mb_kbd_ui_print_window
  deriving DecidableEq, Repr

/-- How `mb_kbd_new` ends: `usage_exit` and `overflow` as for the argument
loop; `null` for `return NULL`; `keyboard kb` for `return kb`;
`keyboard_without_layout` for `return kb` when the loader registered no layout,
so that `selected_layout` is NULL, a keyboard the record `MBKeyboard` does not
describe. -/
inductive NewResult where
  | usage_exit
  | overflow
  | null
  | keyboard (kb : MBKeyboard)
  | keyboard_without_layout
  deriving DecidableEq, Repr

/-- The result of `mb_kbd_new` and its calls into the collaborators, in the
order they were made. -/
structure NewOutcome where
  result : NewResult
  calls : List Call
  deriving DecidableEq, Repr

/-- The variant handed to the loader (lines 147-148): the one of the arguments,
else the value of the environment variable `MB_KBD_VARIANT`. -/
def new_variant (env : Collaborators) (locals : NewLocals) : Option (List Char) :=
  match locals.variant with
  | some v => some v
  | none => env.getenv_MB_KBD_VARIANT

/-- The calls of lines 159-167, between the selection of the layout and
`mb_kbd_ui_realize`. -/
def new_ui_calls (locals : NewLocals) : List Call :=
  (if locals.want_embedding then [Call.mb_kbd_ui_set_embeded] else []) ++
    (if locals.want_daemon then
      Call.mb_kbd_ui_set_daemon ::
        (if locals.orientation ≠ MBKeyboardDisplayOrientation.MBKeyboardDisplayAny then
          [Call.mb_kbd_ui_limit_orientation locals.orientation]
        else [])
    else [])

/-- Lines 150-177 of `mb_kbd_new`, after the argument loop.  The keyboard comes
zero-filled from `util_malloc0` (no layout, no held key, extended off, modifier
word 0) with border 1 and pad, margin and spacings 0 (lines 55-60); the loader
registers its layouts with `mb_kbd_add_layout`, so that `kb->layouts` is the
fold of `util_list_append` over them. -/
def mb_kbd_new_build (env : Collaborators) (locals : NewLocals) : NewOutcome :=
  if !env.mb_kbd_ui_init then
    { result := NewResult.null, calls := [Call.mb_kbd_ui_init] }
  else if !(env.mb_kbd_config_load (new_variant env locals)).2 then
    { result := NewResult.null,
      calls := [Call.mb_kbd_ui_init, Call.mb_kbd_config_load (new_variant env locals)] }
  else
    let layouts : List MBKeyboardLayout :=
      (env.mb_kbd_config_load (new_variant env locals)).1.foldl util_list_append []
    let calls : List Call :=
      [Call.mb_kbd_ui_init, Call.mb_kbd_config_load (new_variant env locals)]
        ++ new_ui_calls locals ++ [Call.mb_kbd_ui_realize]
    if !env.mb_kbd_ui_realize then
      { result := NewResult.null, calls := calls }
    else
      { result :=
          match util_list_get_nth_data layouts 0 with
          | none => NewResult.keyboard_without_layout
          | some selected =>
            NewResult.keyboard
              { font_family := String.mk locals.font_family,
                font_pt_size := locals.font_pt_size,
                font_variant := String.mk locals.font_variant,
                layouts := layouts, selected_layout := selected,
                key_border := 1, key_pad := 0, key_margin := 0,
                row_spacing := 0, col_spacing := 0,
                extended := false, held_key := none, keys_state := 0 },
        calls := calls ++
          (if locals.want_embedding then [Call.mb_kbd_ui_print_window] else []) }

/-- The function `mb_kbd_new (argc, argv)` with `argv` the list of its `argc`
arguments, `argv[0]` first. -/
def mb_kbd_new (env : Collaborators) (argv : List (List Char)) : NewOutcome :=
  match mb_kbd_new_args env.strtol new_locals_start (argv.drop 1) with
  | ArgsResult.usage => { result := NewResult.usage_exit, calls := [] }
  | ArgsResult.overflow => { result := NewResult.overflow, calls := [] }
  | ArgsResult.parsed locals => mb_kbd_new_build env locals

/-- Collaborators that all succeed: no environment variable, the loader
registers the given layouts, `strtol` gives 12. -/
def sample_collaborators (layouts : List MBKeyboardLayout) : Collaborators :=
  { getenv_MB_KBD_VARIANT := none, strtol := fun _ => 12, mb_kbd_ui_init := true,
    mb_kbd_config_load := fun _ => (layouts, true), mb_kbd_ui_realize := true }

/-- The font family the help text of `--fontfamily` describes, written from
the words of the claim and not from the code: the non-empty tokens of `v`
between colons, joined by single spaces. -/
def font_family_joined (v : List Char) : List Char :=
  List.intercalate [' '] ((v.splitOn ':').filter (fun token => decide (token ≠ [])))

/-- The keyboard `mb_kbd_new` returns when the loader registers the stacked rows
and then the three-key row as layouts and no font option is given. -/
def sample_new_keyboard : MBKeyboard :=
  { font_family := "sans", font_pt_size := 8, font_variant := "bold",
    layouts := [{ rows := stacked_rows }, { rows := [three_key_row] }],
    selected_layout := { rows := stacked_rows },
    key_border := 1, key_pad := 0, key_margin := 0, row_spacing := 0, col_spacing := 0,
    extended := false, held_key := none, keys_state := 0 }

/-! ## Lemmas on the two loops -/

theorem locate_key_in_row_eq_find (kb : MBKeyboard) (x : Int) (keys : List MBKeyboardKey) :
    locate_key_in_row kb x keys = keys.find? (fun key => decide (key_hit kb x key)) := by
  induction keys with
  | nil => rfl
  | cons key rest ih =>
    unfold locate_key_in_row
    rw [List.find?_cons, ih]
    by_cases hb : key.is_blank = true <;> by_cases he : key.extended = true <;>
      by_cases hk : kb.extended = true <;> by_cases ha : key.abs_x ≤ x <;>
      by_cases hw : x ≤ key.abs_x + key.width <;>
      simp [key_hit, key_hidden, key_spans, mb_kbd_is_extended, hb, he, hk, ha, hw]

theorem locate_key_in_rows_eq_find (kb : MBKeyboard) (x y : Int) (rows : List MBKeyboardRow) :
    locate_key_in_rows kb x y rows =
      match rows.find? (fun row => decide (row_holds row x y)) with
      | none => none
      | some row => row.keys.find? (fun key => decide (key_hit kb x key)) := by
  induction rows with
  | nil => rfl
  | cons row rest ih =>
    unfold locate_key_in_rows
    rw [List.find?_cons]
    by_cases h : row_holds row x y
    · have h2 := h
      unfold row_holds at h2
      simp [h, h2, locate_key_in_row_eq_find]
    · have h2 := h
      unfold row_holds at h2
      simp only [h, decide_False]
      rw [if_neg (by simpa [ge_iff_le] using h2), ih]

theorem locate_key_in_rows_first (kb : MBKeyboard) (x y : Int) (pre : List MBKeyboardRow)
    (row : MBKeyboardRow) (post : List MBKeyboardRow)
    (hpre : ∀ r ∈ pre, ¬ row_holds r x y) (hrow : row_holds row x y) :
    locate_key_in_rows kb x y (pre ++ row :: post) = locate_key_in_row kb x row.keys := by
  induction pre with
  | nil =>
    have h2 := hrow
    unfold row_holds at h2
    simp only [List.nil_append, locate_key_in_rows]
    rw [if_pos (by simpa [ge_iff_le] using h2)]
  | cons r rest ih =>
    have h2 : ¬ row_holds r x y := hpre r (List.mem_cons_self r rest)
    unfold row_holds at h2
    simp only [List.cons_append, locate_key_in_rows]
    rw [if_neg (by simpa [ge_iff_le] using h2)]
    exact ih (fun q hq => hpre q (List.mem_cons_of_mem r hq))

theorem locate_key_in_row_none (kb : MBKeyboard) (x : Int) (keys : List MBKeyboardKey)
    (h : ∀ k ∈ keys, ¬ key_hit kb x k) : locate_key_in_row kb x keys = none := by
  rw [locate_key_in_row_eq_find, List.find?_eq_none]
  intro k hk
  simpa using h k hk

theorem locate_key_in_row_first (kb : MBKeyboard) (x : Int) (before : List MBKeyboardKey)
    (key : MBKeyboardKey) (after : List MBKeyboardKey)
    (hbefore : ∀ k ∈ before, ¬ key_hit kb x k) (hkey : key_hit kb x key) :
    locate_key_in_row kb x (before ++ key :: after) = some key := by
  rw [locate_key_in_row_eq_find]
  induction before with
  | nil => simp [hkey]
  | cons k rest ih =>
    have hk : ¬ key_hit kb x k := hbefore k (List.mem_cons_self k rest)
    simp only [List.cons_append, List.find?_cons, hk, decide_False]
    exact ih (fun q hq => hbefore q (List.mem_cons_of_mem k hq))

theorem locate_key_in_row_some (kb : MBKeyboard) (x : Int) (keys : List MBKeyboardKey)
    (key : MBKeyboardKey) (h : locate_key_in_row kb x keys = some key) :
    key ∈ keys ∧ key_hit kb x key := by
  rw [locate_key_in_row_eq_find] at h
  refine ⟨List.mem_of_find?_eq_some h, ?_⟩
  simpa using List.find?_some h

theorem locate_key_in_rows_some (kb : MBKeyboard) (x y : Int) (rows : List MBKeyboardRow)
    (key : MBKeyboardKey) (h : locate_key_in_rows kb x y rows = some key) :
    ∃ row ∈ rows, row_holds row x y ∧ key ∈ row.keys ∧ key_hit kb x key := by
  induction rows with
  | nil => simp [locate_key_in_rows] at h
  | cons row rest ih =>
    by_cases hrow : row_holds row x y
    · have h1 := locate_key_in_rows_first kb x y [] row rest (by simp) hrow
      rw [List.nil_append] at h1
      rw [h1] at h
      obtain ⟨hm, hh⟩ := locate_key_in_row_some kb x row.keys key h
      exact ⟨row, List.mem_cons_self row rest, hrow, hm, hh⟩
    · have h2 := hrow
      unfold row_holds at h2
      unfold locate_key_in_rows at h
      rw [if_neg (by simpa [ge_iff_le] using h2)] at h
      obtain ⟨r, hr, hall⟩ := ih h
      exact ⟨r, List.mem_cons_of_mem row hr, hall⟩

/-! ## Lemmas on the modifier word -/

theorem and_two_pow_ne_zero (s k : Nat) : ((s &&& 2 ^ k) != 0) = s.testBit k := by
  cases hb : s.testBit k with
  | true =>
    have h1 : (s &&& 2 ^ k).testBit k = true := by
      rw [Nat.testBit_and, hb, Nat.testBit_two_pow_self]
      rfl
    have h2 : s &&& 2 ^ k ≠ 0 := by
      intro h0
      rw [h0, Nat.zero_testBit] at h1
      exact Bool.noConfusion h1
    simpa using h2
  | false =>
    have h0 : s &&& 2 ^ k = 0 := by
      apply Nat.eq_of_testBit_eq
      intro i
      rw [Nat.testBit_and, Nat.zero_testBit, Nat.testBit_two_pow]
      by_cases hki : k = i
      · subst hki
        simp [hb]
      · simp [hki]
    simp [h0]

theorem has_state_mask (bits : MBKeyboardStateBits) (kbd : MBKeyboard) (m : MBKeyboardStateType) :
    mb_kbd_has_state kbd (bits.mask m) = kbd.keys_state.testBit (bits.bit m).val := by
  unfold mb_kbd_has_state MBKeyboardStateBits.mask
  rw [Nat.one_shiftLeft]
  exact and_two_pow_ne_zero kbd.keys_state (bits.bit m).val

/-! ## Lemmas on the row of equal keys -/

theorem hit_index_spec (x w : Int) (hw : 1 ≤ w) :
    x ≤ ((hit_index x w : Nat) + 1 : Int) * w ∧
      (hit_index x w = 0 ∨ (hit_index x w : Int) * w < x) := by
  have hwq : (0 : ℚ) < (w : ℚ) := by exact_mod_cast (by omega : (0 : Int) < w)
  have h1 : (x : ℚ) / (w : ℚ) ≤ (⌈(x : ℚ) / (w : ℚ)⌉ : ℚ) := Int.le_ceil _
  have h2 : (⌈(x : ℚ) / (w : ℚ)⌉ : ℚ) < (x : ℚ) / (w : ℚ) + 1 := Int.ceil_lt_add_one _
  have h3 : x ≤ ⌈(x : ℚ) / (w : ℚ)⌉ * w := by
    have : (x : ℚ) ≤ (⌈(x : ℚ) / (w : ℚ)⌉ : ℚ) * (w : ℚ) := (div_le_iff₀ hwq).mp h1
    exact_mod_cast this
  have h4 : (⌈(x : ℚ) / (w : ℚ)⌉ - 1) * w < x := by
    have h5 : (⌈(x : ℚ) / (w : ℚ)⌉ : ℚ) - 1 < (x : ℚ) / (w : ℚ) := by linarith
    have : ((⌈(x : ℚ) / (w : ℚ)⌉ : ℚ) - 1) * (w : ℚ) < (x : ℚ) := (lt_div_iff₀ hwq).mp h5
    exact_mod_cast this
  unfold hit_index
  generalize ⌈(x : ℚ) / (w : ℚ)⌉ = c at h3 h4
  by_cases hc : c ≤ 0
  · have h0 : max 0 (c - 1) = 0 := by omega
    rw [h0]
    have hcw : c * w ≤ 0 := by nlinarith
    constructor
    · simp
      omega
    · left
      rfl
  · have h0 : max 0 (c - 1) = c - 1 := by omega
    have hnn : 0 ≤ c - 1 := by omega
    rw [h0]
    constructor
    · rw [Int.toNat_of_nonneg hnn]
      simpa using h3
    · right
      rw [Int.toNat_of_nonneg hnn]
      exact h4

theorem hit_index_of_ceil (x w c : Int) (h : ⌈(x : ℚ) / (w : ℚ)⌉ = c) :
    hit_index x w = Int.toNat (max 0 (c - 1)) := by
  unfold hit_index
  rw [h]

theorem keys_of_map (keys : List MBKeyboardKey) (n : Nat) (w : Int)
    (hkeys : keys.map (fun k => (k.abs_x, k.width, k.is_blank, k.extended))
        = (List.range n).map (fun (i : Nat) => ((i : Int) * w, w, false, false))) :
    keys.length = n ∧ ∀ (j : Nat) (k : MBKeyboardKey), keys[j]? = some k →
      k.abs_x = (j : Int) * w ∧ k.width = w ∧ k.is_blank = false ∧ k.extended = false := by
  have hlen : keys.length = n := by
    have := congrArg List.length hkeys
    simpa using this
  refine ⟨hlen, ?_⟩
  intro j k hjk
  have hj : j < n := by
    rw [← hlen]
    exact (List.getElem?_eq_some_iff.mp hjk).1
  have h := congrArg (fun l => l[j]?) hkeys
  simp only [List.getElem?_map, hjk, Option.map_some', List.getElem?_range hj] at h
  simpa using h

/-! ## The hit test: claims C1, C3, C8 -/

/-- C1: for every keyboard and every integer point `(x, y)`, `mb_kbd_locate_key`
equals the reference: the first row of the selected layout, in row order, whose
inclusive box holds the point decides; without such a row the result is none;
otherwise it is the first key of that row, in key order, that is not blank, is
not extended while extended-mode is false, and has `abs_x <= x <= abs_x + width`,
or none when the row has no such key. -/
theorem C1_locate_key_eq_reference (kb : MBKeyboard) (x y : Int) :
    mb_kbd_locate_key kb x y = locate_key_reference kb x y := by
  unfold mb_kbd_locate_key locate_key_reference mb_kbd_get_selected_layout
  exact locate_key_in_rows_eq_find kb x y kb.selected_layout.rows

/-- C3: when the first row, in row order, whose inclusive box holds `(x, y)` has
no non-blank, non-hidden key whose span holds `x`, `mb_kbd_locate_key` returns
none, whatever the later rows `post` are: the search does not fall through to
another row once a containing row is found. -/
theorem C3_no_fall_through (kb : MBKeyboard) (x y : Int) (pre : List MBKeyboardRow)
    (row : MBKeyboardRow) (post : List MBKeyboardRow)
    (hrows : kb.selected_layout.rows = pre ++ row :: post)
    (hpre : ∀ r ∈ pre, ¬ row_holds r x y) (hrow : row_holds row x y)
    (hkeys : ∀ k ∈ row.keys, ¬ key_hit kb x k) :
    mb_kbd_locate_key kb x y = none := by
  unfold mb_kbd_locate_key mb_kbd_get_selected_layout
  simp only [hrows]
  rw [locate_key_in_rows_first kb x y pre row post hpre hrow]
  exact locate_key_in_row_none kb x row.keys hkeys

/-- Witness of C3 on the stacked rows at the point `(50, 50)`: the upper row is
the first to hold the point and has only a blank key over `x = 50`; the lower
row holds the point too and has a plain key over `x = 50`; the result is
none. -/
theorem C3_no_fall_through_witness :
    (∃ row ∈ stacked_rows.drop 1, row_holds row 50 50 ∧
        ∃ k ∈ row.keys, key_hit (sample_keyboard stacked_rows false 0) 50 k) ∧
      mb_kbd_locate_key (sample_keyboard stacked_rows false 0) 50 50 = none :=
  ⟨by decide,
    C3_no_fall_through (sample_keyboard stacked_rows false 0) 50 50 [] upper_row [lower_row]
      rfl (by decide) (by decide) (by decide)⟩

/-- C8: whenever `mb_kbd_locate_key` returns a key, that key is not blank, is
extended only if extended-mode is true, belongs to a row of the selected layout
whose inclusive box holds `(x, y)`, and has `abs_x <= x <= abs_x + width`.  A
blank key is never the result of a hit test. -/
theorem C8_located_key_sound (kb : MBKeyboard) (x y : Int) (key : MBKeyboardKey)
    (h : mb_kbd_locate_key kb x y = some key) :
    key.is_blank = false ∧ (key.extended = true → kb.extended = true) ∧
      (∃ row ∈ kb.selected_layout.rows, row_holds row x y ∧ key ∈ row.keys) ∧
      key.abs_x ≤ x ∧ x ≤ key.abs_x + key.width := by
  unfold mb_kbd_locate_key mb_kbd_get_selected_layout at h
  obtain ⟨row, hmem, hrow, hkey, hblank, hhid, hspan⟩ :=
    locate_key_in_rows_some kb x y kb.selected_layout.rows key h
  refine ⟨hblank, ?_, ⟨row, hmem, hrow, hkey⟩, hspan.1, hspan.2⟩
  intro hext
  unfold key_hidden at hhid
  cases hk : kb.extended with
  | true => rfl
  | false => exact absurd ⟨hext, hk⟩ hhid

/-- Witness of C8 on the stacked rows with extended-mode on: the point
`(150, 25)` resolves to the plain key over `[100, 200]` of the upper row. -/
theorem C8_located_key_sound_witness :
    mb_kbd_locate_key (sample_keyboard stacked_rows true 0) 150 25
        = some (sample_key 11 100 100 false false) ∧
      (sample_key 11 100 100 false false).is_blank = false ∧
      ((sample_key 11 100 100 false false).extended = true →
        (sample_keyboard stacked_rows true 0).extended = true) ∧
      (∃ row ∈ (sample_keyboard stacked_rows true 0).selected_layout.rows,
        row_holds row 150 25 ∧ sample_key 11 100 100 false false ∈ row.keys) ∧
      (sample_key 11 100 100 false false).abs_x ≤ 150 ∧
      (150 : Int) ≤ (sample_key 11 100 100 false false).abs_x
        + (sample_key 11 100 100 false false).width :=
  ⟨by decide,
    C8_located_key_sound (sample_keyboard stacked_rows true 0) 150 25
      (sample_key 11 100 100 false false) (by decide)⟩

/-! ## The modifier state: claims C2, C9, C10 -/

/-- C2: for every modifier word, `mb_kbd_keys_current_state` returns Shifted if
the Shifted bit is set; otherwise Mod1 if the Mod1 bit is set; otherwise Mod2
if the Mod2 bit is set; otherwise Mod3 if the Mod3 bit is set; otherwise
Normal.  In particular with the Shifted and Mod1 bits both set it returns
Shifted, and with the Mod2 and Mod3 bits set and the Shifted and Mod1 bits
clear it returns Mod2. -/
theorem C2_current_state_priority (bits : MBKeyboardStateBits) (kbd : MBKeyboard) :
    (mb_kbd_keys_current_state bits kbd =
        if kbd.keys_state.testBit (bits.bit MBKeyboardStateType.MBKeyboardStateShifted).val then
          MBKeyboardKeyStateType.MBKeyboardKeyStateShifted
        else if kbd.keys_state.testBit (bits.bit MBKeyboardStateType.MBKeyboardStateMod1).val then
          MBKeyboardKeyStateType.MBKeyboardKeyStateMod1
        else if kbd.keys_state.testBit (bits.bit MBKeyboardStateType.MBKeyboardStateMod2).val then
          MBKeyboardKeyStateType.MBKeyboardKeyStateMod2
        else if kbd.keys_state.testBit (bits.bit MBKeyboardStateType.MBKeyboardStateMod3).val then
          MBKeyboardKeyStateType.MBKeyboardKeyStateMod3
        else
          MBKeyboardKeyStateType.MBKeyboardKeyStateNormal) ∧
      (kbd.keys_state.testBit (bits.bit MBKeyboardStateType.MBKeyboardStateShifted).val = true →
        kbd.keys_state.testBit (bits.bit MBKeyboardStateType.MBKeyboardStateMod1).val = true →
        mb_kbd_keys_current_state bits kbd
          = MBKeyboardKeyStateType.MBKeyboardKeyStateShifted) ∧
      (kbd.keys_state.testBit (bits.bit MBKeyboardStateType.MBKeyboardStateShifted).val = false →
        kbd.keys_state.testBit (bits.bit MBKeyboardStateType.MBKeyboardStateMod1).val = false →
        kbd.keys_state.testBit (bits.bit MBKeyboardStateType.MBKeyboardStateMod2).val = true →
        kbd.keys_state.testBit (bits.bit MBKeyboardStateType.MBKeyboardStateMod3).val = true →
        mb_kbd_keys_current_state bits kbd
          = MBKeyboardKeyStateType.MBKeyboardKeyStateMod2) := by
  have hcascade : mb_kbd_keys_current_state bits kbd =
      if kbd.keys_state.testBit (bits.bit MBKeyboardStateType.MBKeyboardStateShifted).val then
        MBKeyboardKeyStateType.MBKeyboardKeyStateShifted
      else if kbd.keys_state.testBit (bits.bit MBKeyboardStateType.MBKeyboardStateMod1).val then
        MBKeyboardKeyStateType.MBKeyboardKeyStateMod1
      else if kbd.keys_state.testBit (bits.bit MBKeyboardStateType.MBKeyboardStateMod2).val then
        MBKeyboardKeyStateType.MBKeyboardKeyStateMod2
      else if kbd.keys_state.testBit (bits.bit MBKeyboardStateType.MBKeyboardStateMod3).val then
        MBKeyboardKeyStateType.MBKeyboardKeyStateMod3
      else
        MBKeyboardKeyStateType.MBKeyboardKeyStateNormal := by
    unfold mb_kbd_keys_current_state
    simp only [has_state_mask]
  refine ⟨hcascade, ?_, ?_⟩
  · intro hs _
    rw [hcascade, hs]
    rfl
  · intro hs h1 h2 _
    rw [hcascade, hs, h1, h2]
    rfl

/-- Witness of C2 with Shifted, Mod1, Mod2, Mod3 on bits 1, 2, 3, 4: the word
6 (Shifted and Mod1) gives Shifted and the word 24 (Mod2 and Mod3 only) gives
Mod2. -/
theorem C2_current_state_priority_witness :
    mb_kbd_keys_current_state sample_bits (sample_keyboard [] false 6)
        = MBKeyboardKeyStateType.MBKeyboardKeyStateShifted ∧
      mb_kbd_keys_current_state sample_bits (sample_keyboard [] false 24)
        = MBKeyboardKeyStateType.MBKeyboardKeyStateMod2 :=
  ⟨(C2_current_state_priority sample_bits (sample_keyboard [] false 6)).2.1
      (by decide) (by decide),
    (C2_current_state_priority sample_bits (sample_keyboard [] false 24)).2.2
      (by decide) (by decide) (by decide) (by decide)⟩

/-- C9: for every modifier word and every modifier `m` among Shifted, Mod1,
Mod2, Mod3: after `mb_kbd_add_state` of `m`, `mb_kbd_has_state` of `m` is true;
after `mb_kbd_remove_state` of `m`, `mb_kbd_has_state` of `m` is false; whether
or not `m` was set before. -/
theorem C9_add_remove_then_has (bits : MBKeyboardStateBits) (kbd : MBKeyboard) (m : MBKeyboardStateType) :
    mb_kbd_has_state (mb_kbd_add_state kbd (bits.mask m)) (bits.mask m) = true ∧
      mb_kbd_has_state (mb_kbd_remove_state kbd (bits.mask m)) (bits.mask m) = false := by
  constructor
  · rw [has_state_mask]
    unfold mb_kbd_add_state MBKeyboardStateBits.mask
    simp only [Nat.one_shiftLeft, Nat.testBit_or, Nat.testBit_two_pow_self, Bool.or_true]
  · rw [has_state_mask]
    unfold mb_kbd_remove_state MBKeyboardStateBits.mask
    have hones : (4294967295 : Nat) = 2 ^ 32 - 1 := by norm_num
    have hlt : (bits.bit m).val < 32 := (bits.bit m).isLt
    simp only [Nat.one_shiftLeft, hones, Nat.testBit_and, Nat.testBit_xor,
      Nat.testBit_two_pow_sub_one, Nat.testBit_two_pow_self, hlt, decide_True]
    simp

/-- C10: for every modifier word and every modifier `m`, `mb_kbd_toggle_state`
of `m` applied twice gives back the keyboard it started from, modifier word
included, and one toggle negates `mb_kbd_has_state` of `m`. -/
theorem C10_toggle_involution (bits : MBKeyboardStateBits) (kbd : MBKeyboard) (m : MBKeyboardStateType) :
    mb_kbd_toggle_state (mb_kbd_toggle_state kbd (bits.mask m)) (bits.mask m) = kbd ∧
      mb_kbd_has_state (mb_kbd_toggle_state kbd (bits.mask m)) (bits.mask m)
        = !mb_kbd_has_state kbd (bits.mask m) := by
  constructor
  · unfold mb_kbd_toggle_state
    cases kbd
    simp [Nat.xor_assoc]
  · rw [has_state_mask, has_state_mask]
    unfold mb_kbd_toggle_state MBKeyboardStateBits.mask
    simp only [Nat.one_shiftLeft, Nat.testBit_xor, Nat.testBit_two_pow_self]
    cases kbd.keys_state.testBit (bits.bit m).val <;> rfl

/-! ## The hit test: claims C4, C5 -/

/-- C4: for a selected layout with the single row `(0, 0, n*w, h)` holding
`n >= 1` keys of equal width `w >= 1` at `abs_x = 0, w, ..., (n-1)*w`, none
blank or extended: for every point with `0 <= x <= n*w` and `0 <= y <= h`,
`mb_kbd_locate_key` returns the key of index `max(0, ceil(x/w) - 1)`, which is
an index of the row and the smallest `i` with `x <= (i+1)*w`; for every point
outside that box it returns none. -/
theorem C4_uniform_row (kb : MBKeyboard) (row : MBKeyboardRow) (n : Nat) (w h x y : Int)
    (hn : 1 ≤ n) (hw : 1 ≤ w)
    (hrows : kb.selected_layout.rows = [row])
    (hbox : row.x = 0 ∧ row.y = 0 ∧ row.width = (n : Int) * w ∧ row.height = h)
    (hkeys : row.keys.map (fun k => (k.abs_x, k.width, k.is_blank, k.extended))
        = (List.range n).map (fun (i : Nat) => ((i : Int) * w, w, false, false))) :
    ((0 ≤ x ∧ x ≤ (n : Int) * w ∧ 0 ≤ y ∧ y ≤ h) →
        hit_index x w < n ∧
        mb_kbd_locate_key kb x y = row.keys[hit_index x w]? ∧
        x ≤ ((hit_index x w : Nat) + 1 : Int) * w ∧
        ∀ j : Nat, j < hit_index x w → ((j : Int) + 1) * w < x) ∧
      (¬ (0 ≤ x ∧ x ≤ (n : Int) * w ∧ 0 ≤ y ∧ y ≤ h) → mb_kbd_locate_key kb x y = none) := by
  obtain ⟨hx0, hy0, hwd, hht⟩ := hbox
  obtain ⟨hlen, hfields⟩ := keys_of_map row.keys n w hkeys
  obtain ⟨hA, hB⟩ := hit_index_spec x w hw
  have hsmall : ∀ j : Nat, j < hit_index x w → ((j : Int) + 1) * w < x := by
    intro j hj
    rcases hB with h0 | hlt
    · omega
    · have h1 : ((j : Int) + 1) ≤ (hit_index x w : Int) := by omega
      have h2 : ((j : Int) + 1) * w ≤ (hit_index x w : Int) * w :=
        Int.mul_le_mul_of_nonneg_right h1 (by omega)
      omega
  constructor
  · rintro ⟨hx1, hx2, hy1, hy2⟩
    have hidx : hit_index x w < n := by
      rcases hB with h0 | hlt
      · omega
      · by_contra hge
        have h1 : (n : Int) ≤ (hit_index x w : Int) := by omega
        have h2 : (n : Int) * w ≤ (hit_index x w : Int) * w :=
          Int.mul_le_mul_of_nonneg_right h1 (by omega)
        omega
    refine ⟨hidx, ?_, hA, hsmall⟩
    have hrow : row_holds row x y := by
      unfold row_holds
      rw [hx0, hy0, hwd, hht]
      omega
    have hloc : mb_kbd_locate_key kb x y = locate_key_in_row kb x row.keys := by
      unfold mb_kbd_locate_key mb_kbd_get_selected_layout
      simp only [hrows]
      exact locate_key_in_rows_first kb x y [] row [] (by simp) hrow
    have hi : hit_index x w < row.keys.length := by omega
    have hsplit : row.keys = row.keys.take (hit_index x w)
        ++ row.keys[hit_index x w] :: row.keys.drop (hit_index x w + 1) := by
      rw [List.getElem_cons_drop, List.take_append_drop]
    rw [hloc, List.getElem?_eq_getElem hi]
    conv_lhs => rw [hsplit]
    apply locate_key_in_row_first
    · intro k hk
      rw [List.mem_take_iff_getElem] at hk
      obtain ⟨j, hj, rfl⟩ := hk
      have hj2 : j < hit_index x w := by omega
      have hjlen : j < row.keys.length := by omega
      obtain ⟨ha, hwk, _, _⟩ := hfields j row.keys[j] (List.getElem?_eq_getElem hjlen)
      have := hsmall j hj2
      unfold key_hit key_spans
      rw [ha, hwk]
      intro hcon
      have : (j : Int) * w + w = ((j : Int) + 1) * w := by ring
      omega
    · obtain ⟨ha, hwk, hb, he⟩ :=
        hfields (hit_index x w) row.keys[hit_index x w] (List.getElem?_eq_getElem hi)
      unfold key_hit key_spans key_hidden
      rw [ha, hwk, hb, he]
      refine ⟨rfl, by simp, ?_, ?_⟩
      · rcases hB with h0 | hlt
        · rw [h0]
          simpa using hx1
        · omega
      · have : ((hit_index x w : Nat) + 1 : Int) * w = (hit_index x w : Int) * w + w := by ring
        omega
  · intro hout
    have hrow : ¬ row_holds row x y := by
      unfold row_holds
      rw [hx0, hy0, hwd, hht]
      omega
    unfold mb_kbd_locate_key mb_kbd_get_selected_layout
    simp only [hrows, locate_key_in_rows]
    unfold row_holds at hrow
    rw [if_neg (by simpa [ge_iff_le] using hrow)]

/-- Witness of C4, the end-to-end scenario (`n = 3`, `w = 100`, `h = 50`):
`(50,25)` gives Key0, `(150,25)` Key1, `(250,49)` Key2, `(350,25)` none and
`(150,60)` none. -/
theorem C4_uniform_row_witness :
    mb_kbd_locate_key (sample_keyboard [three_key_row] false 0) 50 25
        = some (sample_key 0 0 100 false false) ∧
      mb_kbd_locate_key (sample_keyboard [three_key_row] false 0) 150 25
        = some (sample_key 1 100 100 false false) ∧
      mb_kbd_locate_key (sample_keyboard [three_key_row] false 0) 250 49
        = some (sample_key 2 200 100 false false) ∧
      mb_kbd_locate_key (sample_keyboard [three_key_row] false 0) 350 25 = none ∧
      mb_kbd_locate_key (sample_keyboard [three_key_row] false 0) 150 60 = none := by
  have e0 : hit_index 50 100 = 0 := by
    rw [hit_index_of_ceil 50 100 1 (by rw [Int.ceil_eq_iff]; norm_num)]
    rfl
  have e1 : hit_index 150 100 = 1 := by
    rw [hit_index_of_ceil 150 100 2 (by rw [Int.ceil_eq_iff]; norm_num)]
    rfl
  have e2 : hit_index 250 100 = 2 := by
    rw [hit_index_of_ceil 250 100 3 (by rw [Int.ceil_eq_iff]; norm_num)]
    rfl
  have h0 := ((C4_uniform_row (sample_keyboard [three_key_row] false 0) three_key_row 3 100 50
    50 25 (by decide) (by decide) rfl (by decide) (by decide)).1 (by decide)).2.1
  have h1 := ((C4_uniform_row (sample_keyboard [three_key_row] false 0) three_key_row 3 100 50
    150 25 (by decide) (by decide) rfl (by decide) (by decide)).1 (by decide)).2.1
  have h2 := ((C4_uniform_row (sample_keyboard [three_key_row] false 0) three_key_row 3 100 50
    250 49 (by decide) (by decide) rfl (by decide) (by decide)).1 (by decide)).2.1
  have h3 := (C4_uniform_row (sample_keyboard [three_key_row] false 0) three_key_row 3 100 50
    350 25 (by decide) (by decide) rfl (by decide) (by decide)).2 (by decide)
  have h4 := (C4_uniform_row (sample_keyboard [three_key_row] false 0) three_key_row 3 100 50
    150 60 (by decide) (by decide) rfl (by decide) (by decide)).2 (by decide)
  rw [e0] at h0
  rw [e1] at h1
  rw [e2] at h2
  exact ⟨h0, h1, h2, h3, h4⟩

/-- C5: in the first row whose box holds `(x, y)`, let `A` and `B` be two keys
with `A.abs_x + A.width = B.abs_x = x` (widths not negative, as the data model
requires of every key), both non-blank and not hidden, stored as `first` and
`second` in either order, with no earlier key of the row that can answer the
hit at `x`.  Then `mb_kbd_locate_key` returns the one stored first, and not the
later one when the two differ. -/
theorem C5_shared_edge_first_wins (kb : MBKeyboard) (x y : Int)
    (pre : List MBKeyboardRow) (row : MBKeyboardRow) (post : List MBKeyboardRow)
    (before : List MBKeyboardKey) (first : MBKeyboardKey) (between : List MBKeyboardKey)
    (second : MBKeyboardKey) (after : List MBKeyboardKey) (A B : MBKeyboardKey)
    (hrows : kb.selected_layout.rows = pre ++ row :: post)
    (hpre : ∀ r ∈ pre, ¬ row_holds r x y) (hrow : row_holds row x y)
    (hkeys : row.keys = before ++ first :: (between ++ second :: after))
    (horder : (first = A ∧ second = B) ∨ (first = B ∧ second = A))
    (hedge : A.abs_x + A.width = B.abs_x ∧ B.abs_x = x)
    (hwidth : 0 ≤ A.width ∧ 0 ≤ B.width)
    (hA : A.is_blank = false ∧ ¬ key_hidden kb A)
    (hB : B.is_blank = false ∧ ¬ key_hidden kb B)
    (hbefore : ∀ k ∈ before, ¬ key_hit kb x k) :
    mb_kbd_locate_key kb x y = some first ∧
      (second ≠ first → mb_kbd_locate_key kb x y ≠ some second) := by
  have hAhit : key_hit kb x A := by
    refine ⟨hA.1, hA.2, ?_⟩
    unfold key_spans
    omega
  have hBhit : key_hit kb x B := by
    refine ⟨hB.1, hB.2, ?_⟩
    unfold key_spans
    omega
  have hfirst : key_hit kb x first := by
    rcases horder with ⟨h1, _⟩ | ⟨h1, _⟩
    · rw [h1]
      exact hAhit
    · rw [h1]
      exact hBhit
  have hres : mb_kbd_locate_key kb x y = some first := by
    unfold mb_kbd_locate_key mb_kbd_get_selected_layout
    simp only [hrows]
    rw [locate_key_in_rows_first kb x y pre row post hpre hrow, hkeys]
    exact locate_key_in_row_first kb x before first _ hbefore hfirst
  refine ⟨hres, ?_⟩
  intro hne hsecond
  rw [hres] at hsecond
  exact hne (Option.some.inj hsecond).symm

/-- Witness of C5 on the three-key row: `x = 100` is the right edge of Key0 and
the left edge of Key1, and `(100, 25)` resolves to Key0, not to Key1. -/
theorem C5_shared_edge_first_wins_witness :
    mb_kbd_locate_key (sample_keyboard [three_key_row] false 0) 100 25
        = some (sample_key 0 0 100 false false) ∧
      mb_kbd_locate_key (sample_keyboard [three_key_row] false 0) 100 25
        ≠ some (sample_key 1 100 100 false false) :=
  ⟨(C5_shared_edge_first_wins (sample_keyboard [three_key_row] false 0) 100 25
      [] three_key_row [] [] (sample_key 0 0 100 false false) []
      (sample_key 1 100 100 false false) [sample_key 2 200 100 false false]
      (sample_key 0 0 100 false false) (sample_key 1 100 100 false false)
      rfl (by decide) (by decide) rfl (Or.inl ⟨rfl, rfl⟩) (by decide) (by decide)
      (by decide) (by decide) (by decide)).1,
    (C5_shared_edge_first_wins (sample_keyboard [three_key_row] false 0) 100 25
      [] three_key_row [] [] (sample_key 0 0 100 false false) []
      (sample_key 1 100 100 false false) [sample_key 2 200 100 false false]
      (sample_key 0 0 100 false false) (sample_key 1 100 100 false false)
      rfl (by decide) (by decide) rfl (Or.inl ⟨rfl, rfl⟩) (by decide) (by decide)
      (by decide) (by decide) (by decide)).2 (by decide)⟩

/-! ## The hit test: claims C6, C7 -/

/-- C6 as stated fails.  Three inputs, each with a point inside the box of the
row of an extended key `K` and inside the span of `K`:
* `extended_row`, `(100, 25)`, `K` the extended key over `[100, 200]`: the plain
  key over `[0, 100]` comes first and also spans 100, so it is returned in both
  modes: not none with extended-mode false, not `K` with extended-mode true;
* `extended_row`, `(250, 25)`, `K` the extended blank key over `[200, 300]`:
  with extended-mode true the result is none, not `K`;
* `extended_row` above `extended_lower_row`, `(50, 50)`, `K` the extended key of
  the lower row: the upper row holds the point first and its plain key is
  returned in both modes. -/
theorem C6_extended_key_counterexample :
    (sample_key 41 100 100 false true ∈ extended_row.keys ∧
        extended_row ∈ (sample_keyboard [extended_row] false 0).selected_layout.rows ∧
        (sample_key 41 100 100 false true).extended = true ∧
        row_holds extended_row 100 25 ∧ key_spans (sample_key 41 100 100 false true) 100 ∧
        mb_kbd_locate_key (mb_kbd_set_extended (sample_keyboard [extended_row] false 0) false)
          100 25 = some (sample_key 40 0 100 false false) ∧
        mb_kbd_locate_key (mb_kbd_set_extended (sample_keyboard [extended_row] false 0) true)
          100 25 = some (sample_key 40 0 100 false false) ∧
        sample_key 40 0 100 false false ≠ sample_key 41 100 100 false true) ∧
      (sample_key 42 200 100 true true ∈ extended_row.keys ∧
        (sample_key 42 200 100 true true).extended = true ∧
        row_holds extended_row 250 25 ∧ key_spans (sample_key 42 200 100 true true) 250 ∧
        mb_kbd_locate_key (mb_kbd_set_extended (sample_keyboard [extended_row] false 0) true)
          250 25 = none) ∧
      (sample_key 50 0 100 false true ∈ extended_lower_row.keys ∧
        extended_lower_row ∈
          (sample_keyboard [extended_row, extended_lower_row] false 0).selected_layout.rows ∧
        (sample_key 50 0 100 false true).extended = true ∧
        row_holds extended_lower_row 50 50 ∧ key_spans (sample_key 50 0 100 false true) 50 ∧
        mb_kbd_locate_key
          (mb_kbd_set_extended (sample_keyboard [extended_row, extended_lower_row] false 0) false)
          50 50 = some (sample_key 40 0 100 false false) ∧
        mb_kbd_locate_key
          (mb_kbd_set_extended (sample_keyboard [extended_row, extended_lower_row] false 0) true)
          50 50 = some (sample_key 40 0 100 false false)) := by
  decide

/-- C6, amended: let `(x, y)` lie in the first row, in row order, whose box
holds it, and over an extended key `K` of that row
(`K.abs_x <= x <= K.abs_x + K.width`).  With extended-mode set to false
`mb_kbd_locate_key` returns none, provided no other key of the row that is
neither blank nor extended spans `x`.  With extended-mode set to true the same
call returns `K`, provided `K` is not blank and no non-blank key stored before
`K` in the row spans `x`. -/
theorem C6_extended_key_gate (kb : MBKeyboard) (x y : Int)
    (pre : List MBKeyboardRow) (row : MBKeyboardRow) (post : List MBKeyboardRow)
    (before : List MBKeyboardKey) (K : MBKeyboardKey) (after : List MBKeyboardKey)
    (hrows : kb.selected_layout.rows = pre ++ row :: post)
    (hpre : ∀ r ∈ pre, ¬ row_holds r x y) (hrow : row_holds row x y)
    (hkeys : row.keys = before ++ K :: after)
    (hext : K.extended = true) (hspan : key_spans K x) :
    ((∀ k ∈ row.keys, k ≠ K → k.is_blank = false → k.extended = false → ¬ key_spans k x) →
        mb_kbd_locate_key (mb_kbd_set_extended kb false) x y = none) ∧
      (K.is_blank = false → (∀ k ∈ before, k.is_blank = false → ¬ key_spans k x) →
        mb_kbd_locate_key (mb_kbd_set_extended kb true) x y = some K) := by
  constructor
  · intro hothers
    unfold mb_kbd_locate_key mb_kbd_get_selected_layout
    have hsel : (mb_kbd_set_extended kb false).selected_layout = kb.selected_layout := rfl
    simp only [hsel, hrows]
    rw [locate_key_in_rows_first _ x y pre row post hpre hrow]
    apply locate_key_in_row_none
    intro k hk hhit
    obtain ⟨hb, hhid, hs⟩ := hhit
    by_cases hkK : k = K
    · subst hkK
      exact hhid ⟨hext, rfl⟩
    · cases hke : k.extended with
      | true => exact hhid ⟨hke, rfl⟩
      | false => exact hothers k hk hkK hb hke hs
  · intro hblank hbefore
    unfold mb_kbd_locate_key mb_kbd_get_selected_layout
    have hsel : (mb_kbd_set_extended kb true).selected_layout = kb.selected_layout := rfl
    simp only [hsel, hrows]
    rw [locate_key_in_rows_first _ x y pre row post hpre hrow, hkeys]
    apply locate_key_in_row_first
    · intro k hk hhit
      exact hbefore k hk hhit.1 hhit.2.2
    · refine ⟨hblank, ?_, hspan⟩
      intro hhid
      exact Bool.noConfusion hhid.2

/-- Witness of the amended C6 on `extended_row` above `extended_lower_row` at
`(150, 25)`, over the extended key of `[100, 200]`: none with extended-mode
false, that key with extended-mode true. -/
theorem C6_extended_key_gate_witness :
    mb_kbd_locate_key
        (mb_kbd_set_extended (sample_keyboard [extended_row, extended_lower_row] true 0) false)
        150 25 = none ∧
      mb_kbd_locate_key
        (mb_kbd_set_extended (sample_keyboard [extended_row, extended_lower_row] true 0) true)
        150 25 = some (sample_key 41 100 100 false true) :=
  ⟨(C6_extended_key_gate (sample_keyboard [extended_row, extended_lower_row] true 0) 150 25
      [] extended_row [extended_lower_row] [sample_key 40 0 100 false false]
      (sample_key 41 100 100 false true) [sample_key 42 200 100 true true]
      rfl (by decide) (by decide) rfl rfl (by decide)).1 (by decide),
    (C6_extended_key_gate (sample_keyboard [extended_row, extended_lower_row] true 0) 150 25
      [] extended_row [extended_lower_row] [sample_key 40 0 100 false false]
      (sample_key 41 100 100 false true) [sample_key 42 200 100 true true]
      rfl (by decide) (by decide) rfl rfl (by decide)).2 rfl (by decide)⟩

/-- C7 as stated fails on the stacked rows.  Two points, each inside the box of
a row and inside the span of a blank key of that row:
* `(100, 25)`, in `upper_row` over its blank key of `[0, 100]`: the plain key of
  `[100, 200]` of the same row also spans 100 and is returned;
* `(150, 50)`, in `lower_row` over its blank key of `[100, 200]`: `upper_row`
  holds the point first and its plain key of `[100, 200]` is returned. -/
theorem C7_blank_key_counterexample :
    (upper_row ∈ (sample_keyboard stacked_rows false 0).selected_layout.rows ∧
        sample_key 10 0 100 true false ∈ upper_row.keys ∧
        (sample_key 10 0 100 true false).is_blank = true ∧
        row_holds upper_row 100 25 ∧ key_spans (sample_key 10 0 100 true false) 100 ∧
        mb_kbd_locate_key (sample_keyboard stacked_rows false 0) 100 25
          = some (sample_key 11 100 100 false false)) ∧
      (lower_row ∈ (sample_keyboard stacked_rows false 0).selected_layout.rows ∧
        sample_key 21 100 100 true false ∈ lower_row.keys ∧
        (sample_key 21 100 100 true false).is_blank = true ∧
        row_holds lower_row 150 50 ∧ key_spans (sample_key 21 100 100 true false) 150 ∧
        mb_kbd_locate_key (sample_keyboard stacked_rows false 0) 150 50
          = some (sample_key 11 100 100 false false)) := by
  decide

/-- C7, amended: when `(x, y)` lies in the first row, in row order, whose box
holds it, and over a blank key of that row, and no other key of that row is a
non-blank, non-hidden key whose span holds `x`, `mb_kbd_locate_key` returns
none, whatever the later rows `post` of the layout contain. -/
theorem C7_blank_key_inert (kb : MBKeyboard) (x y : Int)
    (pre : List MBKeyboardRow) (row : MBKeyboardRow) (post : List MBKeyboardRow)
    (blank : MBKeyboardKey)
    (hrows : kb.selected_layout.rows = pre ++ row :: post)
    (hpre : ∀ r ∈ pre, ¬ row_holds r x y) (hrow : row_holds row x y)
    (hmem : blank ∈ row.keys) (hblank : blank.is_blank = true) (hspan : key_spans blank x)
    (hothers : ∀ k ∈ row.keys, k ≠ blank → ¬ key_hit kb x k) :
    mb_kbd_locate_key kb x y = none := by
  unfold mb_kbd_locate_key mb_kbd_get_selected_layout
  simp only [hrows]
  rw [locate_key_in_rows_first kb x y pre row post hpre hrow]
  apply locate_key_in_row_none
  intro k hk hhit
  by_cases hkb : k = blank
  · subst hkb
    rw [hhit.1] at hblank
    exact Bool.noConfusion hblank
  · exact hothers k hk hkb hhit

/-- Witness of the amended C7 on the stacked rows at `(50, 50)`: the upper row
holds the point first, its blank key of `[0, 100]` is under it and its other key
does not span 50; the lower row holds the point too and has a plain key over
it; the result is none. -/
theorem C7_blank_key_inert_witness :
    (row_holds lower_row 50 50 ∧
        key_hit (sample_keyboard stacked_rows false 0) 50 (sample_key 20 0 100 false false)) ∧
      mb_kbd_locate_key (sample_keyboard stacked_rows false 0) 50 50 = none :=
  ⟨by decide,
    C7_blank_key_inert (sample_keyboard stacked_rows false 0) 50 50 [] upper_row [lower_row]
      (sample_key 10 0 100 true false) rfl (by decide) (by decide) (by decide) rfl (by decide)
      (by decide)⟩

/-! ## The modifier state: claims C11, C19 -/

theorem run_state_calls_bits (bits : MBKeyboardStateBits) (calls : List StateCall)
    (kbd : MBKeyboard)
    (h : ∀ i, kbd.keys_state.testBit i = true → ∃ m, (bits.bit m).val = i) :
    ∀ i, (run_state_calls bits kbd calls).keys_state.testBit i = true →
      ∃ m, (bits.bit m).val = i := by
  induction calls generalizing kbd with
  | nil => exact h
  | cons c rest ih =>
    unfold run_state_calls
    rw [List.foldl_cons]
    apply ih
    intro i hi
    cases c with
    | add m =>
      simp only [StateCall.run, mb_kbd_add_state, MBKeyboardStateBits.mask, Nat.one_shiftLeft,
        Nat.testBit_or, Nat.testBit_two_pow, Bool.or_eq_true, decide_eq_true_eq] at hi
      rcases hi with hi | hi
      · exact h i hi
      · exact ⟨m, hi⟩
    | remove m =>
      simp only [StateCall.run, mb_kbd_remove_state, Nat.testBit_and, Bool.and_eq_true] at hi
      exact h i hi.1
    | toggle m =>
      simp only [StateCall.run, mb_kbd_toggle_state, MBKeyboardStateBits.mask,
        Nat.one_shiftLeft, Nat.testBit_xor, Nat.testBit_two_pow] at hi
      by_cases hm : (bits.bit m).val = i
      · exact ⟨m, hm⟩
      · simp only [hm, decide_False, Bool.xor_false] at hi
        exact h i hi

/-- C11: for every modifier word reached from the empty word by a sequence of
add, remove and toggle calls on the modifiers Shifted, Mod1, Mod2, Mod3,
`mb_kbd_has_any_state` is true if and only if `mb_kbd_has_state` is true for
at least one modifier, that is, if and only if the word is not zero. -/
theorem C11_has_any_iff_some_modifier (bits : MBKeyboardStateBits) (kbd : MBKeyboard)
    (calls : List StateCall) (hempty : kbd.keys_state = 0) :
    (mb_kbd_has_any_state (run_state_calls bits kbd calls) = true ↔
        ∃ m, mb_kbd_has_state (run_state_calls bits kbd calls) (bits.mask m) = true) ∧
      (mb_kbd_has_any_state (run_state_calls bits kbd calls) = true ↔
        (run_state_calls bits kbd calls).keys_state ≠ 0) := by
  have hbits := run_state_calls_bits bits calls kbd (by
    intro i hi
    rw [hempty, Nat.zero_testBit] at hi
    exact Bool.noConfusion hi)
  have hany : mb_kbd_has_any_state (run_state_calls bits kbd calls) = true ↔
      (run_state_calls bits kbd calls).keys_state ≠ 0 := by
    unfold mb_kbd_has_any_state
    simp only [decide_eq_true_eq]
    omega
  refine ⟨?_, hany⟩
  rw [hany]
  constructor
  · intro hne
    obtain ⟨i, hi⟩ := Nat.ne_zero_implies_bit_true hne
    obtain ⟨m, hm⟩ := hbits i hi
    refine ⟨m, ?_⟩
    rw [has_state_mask, hm]
    exact hi
  · rintro ⟨m, hm⟩ hzero
    rw [has_state_mask, hzero, Nat.zero_testBit] at hm
    exact Bool.noConfusion hm

/-- Witness of C11 with Shifted, Mod1, Mod2, Mod3 on bits 1, 2, 3, 4: after
"add Shifted, toggle Mod2, remove Shifted" the word is 8, some modifier (Mod2)
is set and `mb_kbd_has_any_state` is true; after "add Mod1, toggle Mod1" the
word is 0 and `mb_kbd_has_any_state` is false. -/
theorem C11_has_any_iff_some_modifier_witness :
    (run_state_calls sample_bits (sample_keyboard [] false 0)
        [StateCall.add MBKeyboardStateType.MBKeyboardStateShifted,
          StateCall.toggle MBKeyboardStateType.MBKeyboardStateMod2,
          StateCall.remove MBKeyboardStateType.MBKeyboardStateShifted]).keys_state = 8 ∧
      mb_kbd_has_any_state (run_state_calls sample_bits (sample_keyboard [] false 0)
        [StateCall.add MBKeyboardStateType.MBKeyboardStateShifted,
          StateCall.toggle MBKeyboardStateType.MBKeyboardStateMod2,
          StateCall.remove MBKeyboardStateType.MBKeyboardStateShifted]) = true ∧
      mb_kbd_has_any_state (run_state_calls sample_bits (sample_keyboard [] false 0)
        [StateCall.add MBKeyboardStateType.MBKeyboardStateMod1,
          StateCall.toggle MBKeyboardStateType.MBKeyboardStateMod1]) = false :=
  ⟨by decide,
    (C11_has_any_iff_some_modifier sample_bits (sample_keyboard [] false 0)
      [StateCall.add MBKeyboardStateType.MBKeyboardStateShifted,
        StateCall.toggle MBKeyboardStateType.MBKeyboardStateMod2,
        StateCall.remove MBKeyboardStateType.MBKeyboardStateShifted] rfl).1.mpr
      ⟨MBKeyboardStateType.MBKeyboardStateMod2, by decide⟩,
    by
      have h := (C11_has_any_iff_some_modifier sample_bits (sample_keyboard [] false 0)
        [StateCall.add MBKeyboardStateType.MBKeyboardStateMod1,
          StateCall.toggle MBKeyboardStateType.MBKeyboardStateMod1] rfl).2
      cases hv : mb_kbd_has_any_state (run_state_calls sample_bits (sample_keyboard [] false 0)
        [StateCall.add MBKeyboardStateType.MBKeyboardStateMod1,
          StateCall.toggle MBKeyboardStateType.MBKeyboardStateMod1]) with
      | false => rfl
      | true => exact absurd (by decide) (h.mp hv)⟩

theorem testBit_mask_of_ne (bits : MBKeyboardStateBits) (m m' : MBKeyboardStateType)
    (hinj : Function.Injective bits.bit) (hne : m ≠ m') :
    (2 ^ (bits.bit m).val).testBit (bits.bit m').val = false := by
  apply Nat.testBit_two_pow_of_ne
  intro h
  exact hne (hinj (Fin.ext h))

theorem sample_bits_injective : Function.Injective sample_bits.bit := by
  intro a b h
  cases a <;> cases b <;> first | rfl | exact absurd h (by decide)

/-- C19: for every modifier word and every two distinct modifiers `m` and `m'`
among Shifted, Mod1, Mod2, Mod3 (distinct modifiers being distinct bits), each
of `mb_kbd_add_state`, `mb_kbd_remove_state` and `mb_kbd_toggle_state` of `m`
leaves `mb_kbd_has_state` of `m'` as it was, and leaves the held key, the
extended flag, the selected layout and the row spacing, column spacing, key
border, key pad and key margin as they were. -/
theorem C19_state_calls_frame (bits : MBKeyboardStateBits) (kbd : MBKeyboard)
    (m m' : MBKeyboardStateType) (hinj : Function.Injective bits.bit) (hne : m ≠ m') :
    ∀ after ∈ [mb_kbd_add_state kbd (bits.mask m), mb_kbd_remove_state kbd (bits.mask m),
        mb_kbd_toggle_state kbd (bits.mask m)],
      mb_kbd_has_state after (bits.mask m') = mb_kbd_has_state kbd (bits.mask m') ∧
        mb_kbd_get_held_key after = mb_kbd_get_held_key kbd ∧
        mb_kbd_is_extended after = mb_kbd_is_extended kbd ∧
        mb_kbd_get_selected_layout after = mb_kbd_get_selected_layout kbd ∧
        mb_kbd_row_spacing after = mb_kbd_row_spacing kbd ∧
        mb_kbd_col_spacing after = mb_kbd_col_spacing kbd ∧
        mb_kbd_keys_border after = mb_kbd_keys_border kbd ∧
        mb_kbd_keys_pad after = mb_kbd_keys_pad kbd ∧
        mb_kbd_keys_margin after = mb_kbd_keys_margin kbd := by
  have hbit := testBit_mask_of_ne bits m m' hinj hne
  intro after hafter
  simp only [List.mem_cons, List.mem_singleton, List.not_mem_nil, or_false] at hafter
  rcases hafter with rfl | rfl | rfl
  · refine ⟨?_, rfl, rfl, rfl, rfl, rfl, rfl, rfl, rfl⟩
    rw [has_state_mask, has_state_mask]
    simp only [mb_kbd_add_state, MBKeyboardStateBits.mask, Nat.one_shiftLeft, Nat.testBit_or,
      hbit, Bool.or_false]
  · refine ⟨?_, rfl, rfl, rfl, rfl, rfl, rfl, rfl, rfl⟩
    rw [has_state_mask, has_state_mask]
    have hones : (4294967295 : Nat) = 2 ^ 32 - 1 := by norm_num
    have hlt : (bits.bit m').val < 32 := (bits.bit m').isLt
    simp only [mb_kbd_remove_state, MBKeyboardStateBits.mask, Nat.one_shiftLeft, hones,
      Nat.testBit_and, Nat.testBit_xor, Nat.testBit_two_pow_sub_one, hbit, hlt, decide_True,
      Bool.xor_false, Bool.and_true]
  · refine ⟨?_, rfl, rfl, rfl, rfl, rfl, rfl, rfl, rfl⟩
    rw [has_state_mask, has_state_mask]
    simp only [mb_kbd_toggle_state, MBKeyboardStateBits.mask, Nat.one_shiftLeft,
      Nat.testBit_xor, hbit, Bool.xor_false]

/-- Witness of C19 with Shifted, Mod1, Mod2, Mod3 on bits 1, 2, 3, 4 and the
word 2 (Shifted set): toggling Mod1 gives the word 6 and Shifted is still
set. -/
theorem C19_state_calls_frame_witness :
    (mb_kbd_toggle_state (sample_keyboard [] false 2)
        (sample_bits.mask MBKeyboardStateType.MBKeyboardStateMod1)).keys_state = 6 ∧
      mb_kbd_has_state (sample_keyboard [] false 2)
        (sample_bits.mask MBKeyboardStateType.MBKeyboardStateShifted) = true ∧
      mb_kbd_has_state
        (mb_kbd_toggle_state (sample_keyboard [] false 2)
          (sample_bits.mask MBKeyboardStateType.MBKeyboardStateMod1))
        (sample_bits.mask MBKeyboardStateType.MBKeyboardStateShifted)
        = mb_kbd_has_state (sample_keyboard [] false 2)
          (sample_bits.mask MBKeyboardStateType.MBKeyboardStateShifted) :=
  ⟨by decide, by decide,
    (C19_state_calls_frame sample_bits (sample_keyboard [] false 2)
      MBKeyboardStateType.MBKeyboardStateMod1 MBKeyboardStateType.MBKeyboardStateShifted
      sample_bits_injective (by decide)
      (mb_kbd_toggle_state (sample_keyboard [] false 2)
        (sample_bits.mask MBKeyboardStateType.MBKeyboardStateMod1))
      (List.mem_cons_of_mem _ (List.mem_cons_of_mem _ (List.mem_singleton.mpr rfl)))).1⟩

/-! ## The facade: claims C13, C16, C17 -/

theorem locate_key_in_row_congr (kb1 kb2 : MBKeyboard) (x : Int)
    (he : mb_kbd_is_extended kb1 = mb_kbd_is_extended kb2) (keys : List MBKeyboardKey) :
    locate_key_in_row kb1 x keys = locate_key_in_row kb2 x keys := by
  induction keys with
  | nil => rfl
  | cons key rest ih =>
    unfold locate_key_in_row
    rw [he, ih]

theorem locate_key_in_rows_congr (kb1 kb2 : MBKeyboard) (x y : Int)
    (he : mb_kbd_is_extended kb1 = mb_kbd_is_extended kb2) (rows : List MBKeyboardRow) :
    locate_key_in_rows kb1 x y rows = locate_key_in_rows kb2 x y rows := by
  induction rows with
  | nil => rfl
  | cons row rest ih =>
    unfold locate_key_in_rows
    rw [ih, locate_key_in_row_congr kb1 kb2 x he]

/-- C13: `mb_kbd_locate_key` is a query on the keyboard (its embedding returns
the key and nothing else, the body having no store through `kb`).  Two
keyboards that agree on the selected layout and on the extended-mode flag get
the same result at every point, whatever their modifier words and held keys;
so a second call at the same point, also after the held key was set or the
modifier word was changed in between, returns what the first call returned. -/
theorem C13_locate_key_reads_layout_and_flag (kb1 kb2 : MBKeyboard) (x y : Int)
    (hlayout : mb_kbd_get_selected_layout kb1 = mb_kbd_get_selected_layout kb2)
    (hflag : mb_kbd_is_extended kb1 = mb_kbd_is_extended kb2) :
    mb_kbd_locate_key kb1 x y = mb_kbd_locate_key kb2 x y ∧
      (∀ (state : Nat) (key : Option MBKeyboardKey),
        mb_kbd_locate_key (mb_kbd_set_held_key (mb_kbd_toggle_state kb1 state) key) x y
          = mb_kbd_locate_key kb2 x y) := by
  have hmain : ∀ ka kb : MBKeyboard,
      mb_kbd_get_selected_layout ka = mb_kbd_get_selected_layout kb →
      mb_kbd_is_extended ka = mb_kbd_is_extended kb →
      mb_kbd_locate_key ka x y = mb_kbd_locate_key kb x y := by
    intro ka kb hl he
    unfold mb_kbd_locate_key
    simp only [hl]
    exact locate_key_in_rows_congr ka kb x y he _
  refine ⟨hmain kb1 kb2 hlayout hflag, ?_⟩
  intro state key
  exact hmain _ kb2 hlayout hflag

/-- Witness of C13 on the stacked rows: a keyboard with the word 0 and no held
key and a keyboard with the word 6 and a held key, both in extended mode, both
resolve `(150, 25)` to the plain key over `[100, 200]`. -/
theorem C13_locate_key_reads_layout_and_flag_witness :
    mb_kbd_locate_key (sample_keyboard stacked_rows true 0) 150 25
        = some (sample_key 11 100 100 false false) ∧
      mb_kbd_locate_key (sample_keyboard stacked_rows true 0) 150 25
        = mb_kbd_locate_key
          (mb_kbd_set_held_key (sample_keyboard stacked_rows true 6)
            (some (sample_key 20 0 100 false false))) 150 25 :=
  ⟨by decide,
    (C13_locate_key_reads_layout_and_flag (sample_keyboard stacked_rows true 0)
      (mb_kbd_set_held_key (sample_keyboard stacked_rows true 6)
        (some (sample_key 20 0 100 false false))) 150 25 rfl rfl).1⟩

/-- C16: for every keyboard and every key reference `key`, `none` included,
`mb_kbd_get_held_key` after `mb_kbd_set_held_key` of `key` returns `key`,
whatever was held before, and `mb_kbd_set_held_key` changes no other field of
the keyboard: modifier word, extended flag, selected layout, layouts, spacing
and font settings stay as they were. -/
theorem C16_held_key_set_get (kb : MBKeyboard) (key : Option MBKeyboardKey) :
    mb_kbd_get_held_key (mb_kbd_set_held_key kb key) = key ∧
      (mb_kbd_set_held_key kb key).keys_state = kb.keys_state ∧
      mb_kbd_is_extended (mb_kbd_set_held_key kb key) = mb_kbd_is_extended kb ∧
      mb_kbd_get_selected_layout (mb_kbd_set_held_key kb key) = mb_kbd_get_selected_layout kb ∧
      (mb_kbd_set_held_key kb key).layouts = kb.layouts ∧
      (mb_kbd_set_held_key kb key).key_border = kb.key_border ∧
      (mb_kbd_set_held_key kb key).key_pad = kb.key_pad ∧
      (mb_kbd_set_held_key kb key).key_margin = kb.key_margin ∧
      (mb_kbd_set_held_key kb key).row_spacing = kb.row_spacing ∧
      (mb_kbd_set_held_key kb key).col_spacing = kb.col_spacing ∧
      (mb_kbd_set_held_key kb key).font_family = kb.font_family ∧
      (mb_kbd_set_held_key kb key).font_pt_size = kb.font_pt_size ∧
      (mb_kbd_set_held_key kb key).font_variant = kb.font_variant :=
  ⟨rfl, rfl, rfl, rfl, rfl, rfl, rfl, rfl, rfl, rfl, rfl, rfl, rfl⟩

/-- C17: for every keyboard and boolean `b`, `mb_kbd_is_extended` after
`mb_kbd_set_extended` of `b` returns `b`, and `mb_kbd_set_extended` leaves the
modifier word as it was, so `mb_kbd_keys_current_state` and `mb_kbd_has_state`
of every modifier return what they returned before. -/
theorem C17_set_extended_is_no_modifier (bits : MBKeyboardStateBits) (kb : MBKeyboard)
    (b : Bool) :
    mb_kbd_is_extended (mb_kbd_set_extended kb b) = b ∧
      (mb_kbd_set_extended kb b).keys_state = kb.keys_state ∧
      mb_kbd_keys_current_state bits (mb_kbd_set_extended kb b)
        = mb_kbd_keys_current_state bits kb ∧
      (∀ m, mb_kbd_has_state (mb_kbd_set_extended kb b) (bits.mask m)
        = mb_kbd_has_state kb (bits.mask m)) :=
  ⟨rfl, rfl, rfl, fun _ => rfl⟩

/-! ## Lemmas on the construction -/

theorem strtok_tokens_eq_go (delimiter : Char) (cp token : List Char) :
    strtok_tokens delimiter cp token
      = (List.splitOnP.go (fun c => c == delimiter) cp token.reverse).filter
          (fun t => decide (t ≠ [])) := by
  induction cp generalizing token with
  | nil =>
    unfold strtok_tokens List.splitOnP.go
    by_cases h : token = []
    · simp [h]
    · simp [h]
  | cons c cp ih =>
    unfold strtok_tokens List.splitOnP.go
    by_cases hc : c = delimiter
    · by_cases h : token = []
      · simp [hc, h, ih]
      · simp [hc, h, ih]
    · have := ih (token ++ [c])
      simp [hc, this]

theorem strtok_tokens_eq_splitOn (v : List Char) :
    strtok_tokens ':' v [] = (v.splitOn ':').filter (fun t => decide (t ≠ [])) := by
  rw [strtok_tokens_eq_go]
  rfl

theorem intercalate_cons_cons (sep a b : List Char) (l : List (List Char)) :
    List.intercalate sep (a :: b :: l) = a ++ sep ++ List.intercalate sep (b :: l) := by
  simp [List.intercalate, List.intersperse]

theorem font_family_loop_eq (tokens : List (List Char)) :
    ∀ (family : List Char) (token : List Char),
      font_family_loop family (token :: tokens)
        = if (family ++ List.intercalate [' '] (token :: tokens)).length < FONT_FAMILY_LEN then
            some (family ++ List.intercalate [' '] (token :: tokens))
          else none := by
  induction tokens with
  | nil =>
    intro family token
    have hi : List.intercalate [' '] [token] = token := by
      simp [List.intercalate, List.intersperse]
    rw [hi]
    unfold font_family_loop strncat
    simp only [FONT_FAMILY_LEN, List.length_append, List.length_take]
    by_cases h : family.length + token.length < 100
    · have h1 : family.length + min (100 - family.length) token.length + 1 ≤ 100 := by omega
      have h2 : List.take (100 - family.length) token = token :=
        List.take_of_length_le (by omega)
      simp [h, h1, h2]
    · have h1 : ¬ family.length + min (100 - family.length) token.length + 1 ≤ 100 := by omega
      simp [h, h1]
  | cons next rest ih =>
    intro family token
    rw [intercalate_cons_cons]
    unfold font_family_loop strncat
    simp only [FONT_FAMILY_LEN, List.length_append, List.length_take]
    by_cases h : family.length + token.length < 100
    · have h1 : family.length + min (100 - family.length) token.length + 1 ≤ 100 := by omega
      have h2 : List.take (100 - family.length) token = token :=
        List.take_of_length_le (by omega)
      simp only [h1, h2, if_true, List.length_append]
      by_cases h3 : family.length + token.length + 1 < 100
      · have h4 : family.length + token.length
            + min (100 - (family.length + token.length)) ([' '] : List Char).length + 1 ≤ 100 := by
          simp only [List.length_singleton]
          omega
        have h5 : List.take (100 - (family.length + token.length)) [' '] = [' '] :=
          List.take_of_length_le (by simp only [List.length_singleton]; omega)
        simp only [h4, h5, if_true]
        rw [ih]
        simp only [FONT_FAMILY_LEN, List.length_append, List.append_assoc, Nat.add_assoc]
      · have h4 : ¬ family.length + token.length
            + min (100 - (family.length + token.length)) ([' '] : List Char).length + 1 ≤ 100 := by
          simp only [List.length_singleton]
          omega
        simp only [h4, if_false]
        have h6 : ¬ family.length + (token.length + ([' '] : List Char).length
            + (List.intercalate [' '] (next :: rest)).length) < 100 := by
          simp only [List.length_singleton]
          omega
        simp only [List.append_assoc, List.length_append] at h6 ⊢
        rw [if_neg h6]
    · have h1 : ¬ family.length + min (100 - family.length) token.length + 1 ≤ 100 := by omega
      simp only [h1, if_false]
      have h6 : ¬ family.length + (token.length + ([' '] : List Char).length
          + (List.intercalate [' '] (next :: rest)).length) < 100 := by
        simp only [List.length_singleton]
        omega
      simp only [List.append_assoc, List.length_append] at h6 ⊢
      rw [if_neg h6]

theorem font_family_of_value_eq (v : List Char) :
    font_family_of_value v
      = if (font_family_joined v).length < FONT_FAMILY_LEN then some (font_family_joined v)
        else none := by
  unfold font_family_of_value font_family_joined
  rw [strtok_tokens_eq_splitOn]
  cases htok : (v.splitOn ':').filter (fun t => decide (t ≠ [])) with
  | nil => simp [font_family_loop, List.intercalate, FONT_FAMILY_LEN]
  | cons token rest =>
    rw [font_family_loop_eq]
    simp only [List.nil_append]
    by_cases h : (List.intercalate [' '] (token :: rest)).length < FONT_FAMILY_LEN
    · simp only [h, if_true]
      rw [List.take_of_length_le (by unfold FONT_FAMILY_LEN at h; omega)]
    · simp only [h, if_false]

theorem foldl_util_list_append (ls acc : List MBKeyboardLayout) :
    ls.foldl util_list_append acc = acc ++ ls := by
  induction ls generalizing acc with
  | nil => simp
  | cons l rest ih =>
    rw [List.foldl_cons, ih]
    simp [util_list_append]

theorem foldl_mb_kbd_add_layout (ls : List MBKeyboardLayout) (kb : MBKeyboard) :
    (ls.foldl mb_kbd_add_layout kb).layouts = kb.layouts ++ ls := by
  induction ls generalizing kb with
  | nil => simp
  | cons l rest ih =>
    rw [List.foldl_cons, ih]
    simp [mb_kbd_add_layout, util_list_append]

theorem mb_kbd_new_build_result (env : Collaborators) (locals : NewLocals) :
    (mb_kbd_new_build env locals).result =
      if env.mb_kbd_ui_init = true ∧ (env.mb_kbd_config_load (new_variant env locals)).2 = true ∧
          env.mb_kbd_ui_realize = true then
        match (env.mb_kbd_config_load (new_variant env locals)).1 with
        | [] => NewResult.keyboard_without_layout
        | first :: rest =>
          NewResult.keyboard
            { font_family := String.mk locals.font_family,
              font_pt_size := locals.font_pt_size,
              font_variant := String.mk locals.font_variant,
              layouts := first :: rest, selected_layout := first,
              key_border := 1, key_pad := 0, key_margin := 0,
              row_spacing := 0, col_spacing := 0,
              extended := false, held_key := none, keys_state := 0 }
      else NewResult.null := by
  unfold mb_kbd_new_build
  cases h1 : env.mb_kbd_ui_init
  · simp
  · cases h2 : (env.mb_kbd_config_load (new_variant env locals)).2
    · simp
    · cases h3 : env.mb_kbd_ui_realize
      · simp
      · simp only [Bool.not_true, Bool.false_eq_true, if_false, foldl_util_list_append,
          List.nil_append, util_list_get_nth_data, and_self, if_true]
        cases (env.mb_kbd_config_load (new_variant env locals)).1 with
        | nil => rfl
        | cons first rest => simp

theorem mb_kbd_new_of_parsed (env : Collaborators) (argv : List (List Char)) (locals : NewLocals)
    (hargs : mb_kbd_new_args env.strtol new_locals_start (argv.drop 1) = ArgsResult.parsed locals) :
    mb_kbd_new env argv = mb_kbd_new_build env locals := by
  unfold mb_kbd_new
  rw [hargs]

theorem mb_kbd_new_result_keyboard (env : Collaborators) (argv : List (List Char))
    (kb : MBKeyboard) (h : (mb_kbd_new env argv).result = NewResult.keyboard kb) :
    ∃ locals first rest,
      mb_kbd_new_args env.strtol new_locals_start (argv.drop 1) = ArgsResult.parsed locals ∧
      env.mb_kbd_ui_init = true ∧ env.mb_kbd_ui_realize = true ∧
      (env.mb_kbd_config_load (new_variant env locals)).2 = true ∧
      (env.mb_kbd_config_load (new_variant env locals)).1 = first :: rest ∧
      kb = { font_family := String.mk locals.font_family,
             font_pt_size := locals.font_pt_size,
             font_variant := String.mk locals.font_variant,
             layouts := first :: rest, selected_layout := first,
             key_border := 1, key_pad := 0, key_margin := 0,
             row_spacing := 0, col_spacing := 0,
             extended := false, held_key := none, keys_state := 0 } := by
  cases hargs : mb_kbd_new_args env.strtol new_locals_start (argv.drop 1) with
  | usage =>
    unfold mb_kbd_new at h
    rw [hargs] at h
    exact NewResult.noConfusion h
  | overflow =>
    unfold mb_kbd_new at h
    rw [hargs] at h
    exact NewResult.noConfusion h
  | parsed locals =>
    rw [mb_kbd_new_of_parsed env argv locals hargs, mb_kbd_new_build_result] at h
    by_cases hall : env.mb_kbd_ui_init = true ∧
        (env.mb_kbd_config_load (new_variant env locals)).2 = true ∧ env.mb_kbd_ui_realize = true
    · rw [if_pos hall] at h
      cases hl : (env.mb_kbd_config_load (new_variant env locals)).1 with
      | nil => simp [hl] at h
      | cons first rest =>
        simp only [hl, NewResult.keyboard.injEq] at h
        exact ⟨locals, first, rest, rfl, hall.1, hall.2.2, hall.2.1, hl, h.symm⟩
    · rw [if_neg hall] at h
      exact NewResult.noConfusion h

theorem current_state_normal_iff (bits : MBKeyboardStateBits) (kbd : MBKeyboard) :
    mb_kbd_keys_current_state bits kbd = MBKeyboardKeyStateType.MBKeyboardKeyStateNormal ↔
      ∀ m, kbd.keys_state.testBit (bits.bit m).val = false := by
  unfold mb_kbd_keys_current_state
  simp only [has_state_mask]
  constructor
  · intro h m
    cases h0 : kbd.keys_state.testBit (bits.bit MBKeyboardStateType.MBKeyboardStateShifted).val <;>
      cases h1 : kbd.keys_state.testBit (bits.bit MBKeyboardStateType.MBKeyboardStateMod1).val <;>
      cases h2 : kbd.keys_state.testBit (bits.bit MBKeyboardStateType.MBKeyboardStateMod2).val <;>
      cases h3 : kbd.keys_state.testBit (bits.bit MBKeyboardStateType.MBKeyboardStateMod3).val <;>
      simp [h0, h1, h2, h3] at h
    cases m
    · exact h0
    · exact h1
    · exact h2
    · exact h3
  · intro h
    simp [h]

/-! ## Construction: claims C12, C14, C15, C18, C20 -/

/-- C14: `mb_kbd_add_layout` appends, so the layouts of a keyboard are kept in
the order they were registered; and after a successful `mb_kbd_new` the layouts
of the keyboard are those the loader registered for the requested variant, in
that order, and the selected layout, which `mb_kbd_get_selected_layout`
returns, is the first of them. -/
theorem C14_selected_layout_is_first_registered (env : Collaborators)
    (argv : List (List Char)) (kb : MBKeyboard)
    (h : (mb_kbd_new env argv).result = NewResult.keyboard kb) :
    (∀ (kb0 : MBKeyboard) (registered : List MBKeyboardLayout),
        (registered.foldl mb_kbd_add_layout kb0).layouts = kb0.layouts ++ registered) ∧
      ∃ locals first rest,
        mb_kbd_new_args env.strtol new_locals_start (argv.drop 1) = ArgsResult.parsed locals ∧
        (env.mb_kbd_config_load (new_variant env locals)).1 = first :: rest ∧
        kb.layouts = first :: rest ∧
        mb_kbd_get_selected_layout kb = first := by
  refine ⟨fun kb0 registered => foldl_mb_kbd_add_layout registered kb0, ?_⟩
  obtain ⟨locals, first, rest, hargs, _, _, _, hreg, hkb⟩ :=
    mb_kbd_new_result_keyboard env argv kb h
  refine ⟨locals, first, rest, hargs, hreg, ?_, ?_⟩
  · rw [hkb]
  · rw [hkb]
    rfl

/-- Witness of C14: the loader registers the stacked rows and then the
three-key row; `mb_kbd_new` returns a keyboard with these two layouts in that
order and the stacked rows selected. -/
theorem C14_selected_layout_is_first_registered_witness :
    (mb_kbd_new (sample_collaborators [{ rows := stacked_rows }, { rows := [three_key_row] }])
        ["matchbox-keyboard".toList]).result = NewResult.keyboard sample_new_keyboard ∧
      mb_kbd_get_selected_layout sample_new_keyboard = { rows := stacked_rows } ∧
      ∃ locals first rest,
        mb_kbd_new_args
            (sample_collaborators
              [{ rows := stacked_rows }, { rows := [three_key_row] }]).strtol
            new_locals_start (["matchbox-keyboard".toList].drop 1) = ArgsResult.parsed locals ∧
        ((sample_collaborators
            [{ rows := stacked_rows }, { rows := [three_key_row] }]).mb_kbd_config_load
          (new_variant
            (sample_collaborators [{ rows := stacked_rows }, { rows := [three_key_row] }])
            locals)).1 = first :: rest ∧
        sample_new_keyboard.layouts = first :: rest ∧
        mb_kbd_get_selected_layout sample_new_keyboard = first :=
  ⟨by decide, by decide,
    (C14_selected_layout_is_first_registered
      (sample_collaborators [{ rows := stacked_rows }, { rows := [three_key_row] }])
      ["matchbox-keyboard".toList] sample_new_keyboard (by decide)).2⟩

/-- C18: a keyboard returned by `mb_kbd_new` starts with the empty modifier
word: `mb_kbd_has_state` is false for every modifier, `mb_kbd_has_any_state` is
false and `mb_kbd_keys_current_state` returns Normal.  And for every keyboard
`mb_kbd_keys_current_state` returns Normal exactly when none of the Shifted,
Mod1, Mod2, Mod3 bits is set. -/
theorem C18_new_keyboard_has_no_modifier (env : Collaborators) (argv : List (List Char))
    (kb : MBKeyboard) (h : (mb_kbd_new env argv).result = NewResult.keyboard kb) :
    (∀ (bits : MBKeyboardStateBits) (m : MBKeyboardStateType),
        mb_kbd_has_state kb (bits.mask m) = false) ∧
      mb_kbd_has_any_state kb = false ∧
      (∀ bits : MBKeyboardStateBits,
        mb_kbd_keys_current_state bits kb
          = MBKeyboardKeyStateType.MBKeyboardKeyStateNormal) ∧
      (∀ (bits : MBKeyboardStateBits) (kbd : MBKeyboard),
        mb_kbd_keys_current_state bits kbd = MBKeyboardKeyStateType.MBKeyboardKeyStateNormal ↔
          ∀ m, kbd.keys_state.testBit (bits.bit m).val = false) := by
  obtain ⟨locals, first, rest, _, _, _, _, _, hkb⟩ := mb_kbd_new_result_keyboard env argv kb h
  have hzero : kb.keys_state = 0 := by rw [hkb]
  refine ⟨?_, ?_, ?_, current_state_normal_iff⟩
  · intro bits m
    rw [has_state_mask, hzero, Nat.zero_testBit]
  · unfold mb_kbd_has_any_state
    rw [hzero]
    rfl
  · intro bits
    rw [current_state_normal_iff]
    intro m
    rw [hzero, Nat.zero_testBit]

/-- Witness of C18: the keyboard returned for `matchbox-keyboard` alone, with a
loader that registers two layouts, has the word 0, no modifier set and the
current state Normal. -/
theorem C18_new_keyboard_has_no_modifier_witness :
    (mb_kbd_new (sample_collaborators [{ rows := stacked_rows }, { rows := [three_key_row] }])
        ["matchbox-keyboard".toList]).result = NewResult.keyboard sample_new_keyboard ∧
      sample_new_keyboard.keys_state = 0 ∧
      mb_kbd_has_any_state sample_new_keyboard = false ∧
      mb_kbd_keys_current_state sample_bits sample_new_keyboard
        = MBKeyboardKeyStateType.MBKeyboardKeyStateNormal :=
  ⟨by decide, by decide,
    (C18_new_keyboard_has_no_modifier
      (sample_collaborators [{ rows := stacked_rows }, { rows := [three_key_row] }])
      ["matchbox-keyboard".toList] sample_new_keyboard (by decide)).2.1,
    (C18_new_keyboard_has_no_modifier
      (sample_collaborators [{ rows := stacked_rows }, { rows := [three_key_row] }])
      ["matchbox-keyboard".toList] sample_new_keyboard (by decide)).2.2.1 sample_bits⟩

set_option maxRecDepth 100000 in
/-- C20, at the failing input: the `--fontfamily` branch stores the non-empty
tokens of the value between colons, joined by single spaces, when they make
fewer than 100 characters, and otherwise a `strncat` writes the terminating
NUL past the end of the 100-char array `family`.  So "dejavu:sans" gives
"dejavu sans" and no option gives "sans", but for a value of 100 letters `a`,
where the claim has these 100 letters stored, `mb_kbd_new` ends in the
out-of-bounds write. -/
theorem C20_fontfamily_overflow :
    (∀ v : List Char,
        font_family_of_value v
          = if (font_family_joined v).length < FONT_FAMILY_LEN then some (font_family_joined v)
            else none) ∧
      (mb_kbd_new (sample_collaborators [{ rows := stacked_rows }])
          ["matchbox-keyboard".toList, "--fontfamily".toList, "dejavu:sans".toList]).result
        = NewResult.keyboard { sample_keyboard stacked_rows false 0 with
            font_family := "dejavu sans" } ∧
      (mb_kbd_new (sample_collaborators [{ rows := stacked_rows }])
          ["matchbox-keyboard".toList]).result
        = NewResult.keyboard { sample_keyboard stacked_rows false 0 with
            font_family := "sans" } ∧
      (font_family_joined (List.replicate 100 'a')).take 100 = List.replicate 100 'a' ∧
      (mb_kbd_new (sample_collaborators [{ rows := stacked_rows }])
          ["matchbox-keyboard".toList, "--fontfamily".toList, List.replicate 100 'a']).result
        = NewResult.overflow :=
  ⟨font_family_of_value_eq, by decide, by decide, by decide, by decide⟩

end MatchboxKeyboard
